import Mathlib

/-!
# Node list of the gateway (`modules/gateway/nodes.go`)

A shallow embedding of the gateway's node-list operations, followed by the
standalone transaction checks of `types/validtransaction.go` and the
transaction intake and height bookkeeping of the block creator
(`modules/blockcreator/update.go`).

* `g.nodes` is a Go `map[modules.NetAddress]struct{}`: a finite set of
  addresses, modelled as a `Finset NetAddress`.  The order in which a Go
  `range` loop visits a map is not part of the map, so every function that
  ranges over `g.nodes` receives the visiting order as an argument, and the
  theorems assume that it enumerates the set (`Enumerates`).
* `g.peers` is a Go map keyed by address; only key membership is used here.
* Random draws (`fastrand.Intn`, `fastrand.Perm`), the outcome of network
  operations and the outcome of `g.save()` are arguments of the functions
  that consume them.
* Effects on the lock, the logger, the persistence hook and the network, and
  the statements that touch `g.nodes` or `g.peers`, are recorded, in program
  order, in the `trace` field of the state.
* One body of a background loop is modelled as one function on the state
  (the interleaving with other threads between two lock sections is not
  modelled).
-/

namespace Rivine

/-! ## Data model -/

/-- The Go type `modules.NetAddress` is a string type. -/
abbrev NetAddress := String

/-- Go error values.  The package-level errors are created once by
`errors.New` and compared by identity, so each is a constructor of its own;
`errNoPeers` is declared in another file of the package.  `errorsNew msg` is an
error created by `errors.New(msg)` at the place where it is returned; it is
never identical to a package-level error. -/
inductive GoError where
  | errNodeExists
  | errNoNodes
  | errOurAddress
  | errPeerGenesisID
  | errNoPeers
  | errorsNew (msg : String)
  deriving DecidableEq, Repr

/-- The methods of `modules.NetAddress` (and `net.ParseIP`) that nodes.go
calls.  They are declared outside the modelled file and are taken as
arguments. -/
structure AddrOps where
  /-- `addr.IsStdValid()`: `none` is the nil error. -/
  IsStdValid : NetAddress → Option GoError
  /-- `addr.Host()`. -/
  Host : NetAddress → String
  /-- `net.ParseIP(host)`: `none` is the nil IP. -/
  ParseIP : String → Option (List Nat)
  /-- `addr.IsLoopback()`. -/
  IsLoopback : NetAddress → Bool
  /-- `addr.IsLocal()`. -/
  IsLocal : NetAddress → Bool

/-- Lines written to `g.log`, one constructor per logging statement. -/
inductive LogEntry where
  /-- `WARN: peer ... sent the invalid addr ...` (requestNodes). -/
  | warnInvalidAddr (peer : NetAddress) (node : NetAddress)
  /-- `WARN: failed to save nodelist after requesting nodes` (requestNodes). -/
  | warnSaveFailed (err : GoError)
  /-- `ERROR: could not pick a random node for uptime check` (purger). -/
  | errorRandomNode (err : GoError)
  /-- `INFO: removing node ... because it could not be reached` (purger). -/
  | infoRemovingNode (node : NetAddress) (err : GoError)
  /-- `ERROR: could not fetch a random peer` (manager). -/
  | errorRandomPeer (err : GoError)
  /-- `WARN: RPC ShareNodes failed on peer ...` (manager). -/
  | warnRPCFailed (peer : NetAddress) (err : GoError)
  deriving DecidableEq, Repr

/-- The delays of the background loops; the constants are declared outside
the modelled sources, only their names are used. -/
inductive Delay where
  | nodePurgeDelay
  | fastNodePurgeDelay
  | nodeListDelay
  | wellConnectedDelay
  deriving DecidableEq, Repr

/-- Observable effects, in program order. -/
inductive Event where
  | setDeadline
  | rlock
  | runlock
  | lock
  | unlock
  /-- `encoding.ReadObject(conn, ...)`. -/
  | readObject
  /-- `encoding.WriteObject(conn, nodes)`. -/
  | writeObject (nodes : List NetAddress)
  /-- `g.dial(addr)`. -/
  | dial (addr : NetAddress)
  /-- `connectHandshake(conn, ...)` on the connection dialled to `addr`. -/
  | handshake (addr : NetAddress)
  /-- `g.save()` of the node set, with its result. -/
  | save (nodes : Finset NetAddress) (result : Option GoError)
  | log (entry : LogEntry)
  /-- `g.managedRPC(peer, "ShareNodes", g.requestNodes)`. -/
  | rpcShareNodes (peer : NetAddress)
  /-- A statement that reads `g.nodes` (`len`, a lookup, a `range` loop). -/
  | readNodes
  /-- A statement that may write `g.nodes` (`addNode`, `removeNode`). -/
  | writeNodes
  /-- A statement that reads `g.peers`. -/
  | readPeers
  /-- A `select` that ended because `time.After(d)` fired. -/
  | sleep (d : Delay)
  deriving DecidableEq

/-- The fields of `Gateway` that nodes.go reads or writes, and the trace of
effects. -/
structure Gateway where
  myAddr : NetAddress
  nodes : Finset NetAddress
  peers : Finset NetAddress
  trace : List Event
  deriving DecidableEq

/-- Append an effect to the trace. -/
def Gateway.emit (g : Gateway) (e : Event) : Gateway :=
  { g with trace := g.trace ++ [e] }

/-- A list is a visiting order of a Go map with key set `s`: every key once. -/
def Enumerates (s : Finset NetAddress) (order : List NetAddress) : Prop :=
  order.Nodup ∧ ∀ a, a ∈ order ↔ a ∈ s

instance (s : Finset NetAddress) (order : List NetAddress) :
    Decidable (Enumerates s order) :=
  decidable_of_iff (order.Nodup ∧ order.toFinset = s) (by
    unfold Enumerates
    constructor
    · rintro ⟨h1, h2⟩
      exact ⟨h1, fun a => by rw [← h2, List.mem_toFinset]⟩
    · rintro ⟨h1, h2⟩
      exact ⟨h1, by ext a; rw [List.mem_toFinset]; exact h2 a⟩)

/-! ## addNode, removeNode, randomNode -/

/-- Source: `Gateway.addNode`. -/
def addNode (ops : AddrOps) (g : Gateway) (addr : NetAddress) :
    Gateway × Option GoError :=
  if addr = g.myAddr then
    (g, some GoError.errOurAddress)
  else if addr ∈ g.nodes then
    (g, some GoError.errNodeExists)
  else if ops.IsStdValid addr ≠ none then
    (g, some (GoError.errorsNew ("address is not valid: " ++ addr)))
  else if ops.ParseIP (ops.Host addr) = none then
    (g, some (GoError.errorsNew ("address must be an IP address: " ++ addr)))
  else
    ({ g with nodes := insert addr g.nodes }, none)

/-- Source: `Gateway.pingNode`.  `dialErr` is the result of `g.dial(addr)`
and `handshakeErr` the result of `connectHandshake` on the dialled
connection. -/
def pingNode (g : Gateway) (addr : NetAddress)
    (dialErr handshakeErr : Option GoError) : Gateway × Option GoError :=
  let g1 := g.emit (Event.dial addr)
  match dialErr with
  | some e => (g1, some e)
  | none => (g1.emit (Event.handshake addr), handshakeErr)

/-- Source: `Gateway.removeNode`. -/
def removeNode (g : Gateway) (addr : NetAddress) : Gateway × Option GoError :=
  if addr ∉ g.nodes then
    (g, some (GoError.errorsNew "no record of that node"))
  else
    ({ g with nodes := g.nodes.erase addr }, none)

/-- The scan of `randomNode`: `for node := range g.nodes`, with the counter
`r`, and the return after the loop. -/
def randomNodeScan : List NetAddress → Int → NetAddress × Option GoError
  | [], _ => ("", some GoError.errNoPeers)
  | node :: rest, r =>
    if r ≤ 0 then (node, none) else randomNodeScan rest (r - 1)

/-- Source: `Gateway.randomNode`.  `order` is the visiting order of the
`range` loop and `r` the value drawn by `fastrand.Intn(len(g.nodes))`. -/
def randomNode (g : Gateway) (order : List NetAddress) (r : Int) :
    NetAddress × Option GoError :=
  if g.nodes.card = 0 then
    ("", some GoError.errNoPeers)
  else
    randomNodeScan order r

/-! ## The ShareNodes RPC -/

/-- Modelled from the spec: the constant `maxSharedNodes`, declared in a file
of the package that is not part of the modelled sources.  The spec and the
comment above `shareNodes` both give 10. -/
def maxSharedNodes : Nat := 10

/-- What the remote end of a connection puts on the wire in answer to
ShareNodes: either the read fails on the transport (`readErr`), or the
declared sequence of addresses arrives. -/
structure WireMsg where
  readErr : Option GoError
  entries : List NetAddress

/-- The part of `modules.PeerConn` that nodes.go uses. -/
structure PeerConn where
  /-- `conn.RPCAddr()`. -/
  RPCAddr : NetAddress
  /-- `conn.RemoteAddr().String()`. -/
  RemoteAddr : String
  /-- The data the remote end sends on this connection. -/
  incoming : WireMsg
  /-- The result of writing an object to this connection. -/
  writeErr : Option GoError

/-- The encoding of addresses on the wire and `modules.MaxEncodedNetAddressLength`,
both declared outside the modelled sources. -/
structure WireCodec where
  /-- Bytes taken by the length prefix of the sequence. -/
  seqOverhead : Nat
  /-- Encoded length of one address. -/
  encodedLen : NetAddress → Nat
  /-- `modules.MaxEncodedNetAddressLength`. -/
  MaxEncodedNetAddressLength : Nat

/-- Encoded length of the data of a message. -/
def WireMsg.dataLen (c : WireCodec) (m : WireMsg) : Nat :=
  c.seqOverhead + (m.entries.map c.encodedLen).sum

/-- Modelled from the spec: `encoding.ReadObject(conn, &nodes, maxLen)`, which
lives in the `encoding` package.  The spec (4.3, client side, step 2): the
read is bounded to 10 entries times the maximum per-address encoded length,
and fails if the wire data exceeds this bound; I/O errors abort the RPC.  The
bound reaches it as the single number `maxLen`. -/
def ReadObject (c : WireCodec) (m : WireMsg) (maxLen : Nat) :
    Except GoError (List NetAddress) :=
  match m.readErr with
  | some e => Except.error e
  | none =>
    if maxLen < m.dataLen c then
      Except.error (GoError.errorsNew "encoded object exceeds the maximum length")
    else
      Except.ok m.entries

/-- The candidate loop of `shareNodes`: `for node := range g.nodes`, visiting
the nodes in the given order, building `gnodes`. -/
def shareCandidates (ops : AddrOps) (remoteNA : NetAddress) :
    List NetAddress → List NetAddress
  | [] => []
  | node :: rest =>
    if ops.IsLoopback node && !ops.IsLoopback remoteNA then
      shareCandidates ops remoteNA rest
    else if ops.IsLocal node && !ops.IsLocal remoteNA then
      shareCandidates ops remoteNA rest
    else
      node :: shareCandidates ops remoteNA rest

/-- The selection loop of `shareNodes`: `for _, i := range fastrand.Perm(...)`,
appending `gnodes[i]` to `nodes` and breaking when `nodes` has
`maxSharedNodes` entries.  `none` is the run-time panic of an index out of
range. -/
def shareSelect (gnodes : List NetAddress) :
    List Nat → List NetAddress → Option (List NetAddress)
  | [], nodes => some nodes
  | i :: rest, nodes =>
    match gnodes.get? i with
    | none => none
    | some n =>
      if (nodes ++ [n]).length = maxSharedNodes then
        some (nodes ++ [n])
      else
        shareSelect gnodes rest (nodes ++ [n])

/-- Source: `Gateway.shareNodes`.  `order` is the visiting order of
`range g.nodes`, `perm` the value of `fastrand.Perm(len(gnodes))`.  The
result is the state, the list handed to `encoding.WriteObject` and the
returned error; `none` is a run-time panic. -/
def shareNodes (ops : AddrOps) (g : Gateway) (conn : PeerConn)
    (order : List NetAddress) (perm : List Nat) :
    Option (Gateway × List NetAddress × Option GoError) :=
  let g1 := g.emit Event.setDeadline
  let remoteNA : NetAddress := conn.RemoteAddr
  let g2 := (g1.emit Event.rlock).emit Event.readNodes
  let gnodes := shareCandidates ops remoteNA order
  match shareSelect gnodes perm [] with
  | none => none
  | some nodes =>
    let g3 := g2.emit Event.runlock
    some (g3.emit (Event.writeObject nodes), nodes, conn.writeErr)

/-- The loop of `requestNodes` over the received addresses. -/
def requestNodesLoop (ops : AddrOps) (rpcAddr : NetAddress) :
    Gateway → List NetAddress → Gateway
  | g, [] => g
  | g, node :: rest =>
    let res := addNode ops (g.emit Event.writeNodes) node
    if res.2 ≠ none ∧ res.2 ≠ some GoError.errNodeExists
        ∧ res.2 ≠ some GoError.errOurAddress then
      requestNodesLoop ops rpcAddr
        (res.1.emit (Event.log (LogEntry.warnInvalidAddr rpcAddr node))) rest
    else
      requestNodesLoop ops rpcAddr res.1 rest

/-- Source: `Gateway.requestNodes`.  `saveErr` is the result of `g.save()`.
The bound handed to `ReadObject` is a `uint64` product. -/
def requestNodes (ops : AddrOps) (c : WireCodec) (g : Gateway) (conn : PeerConn)
    (saveErr : Option GoError) : Gateway × Option GoError :=
  let g1 := (g.emit Event.setDeadline).emit Event.readObject
  match ReadObject c conn.incoming
      ((maxSharedNodes * c.MaxEncodedNetAddressLength) % 2 ^ 64) with
  | Except.error e => (g1, some e)
  | Except.ok nodes =>
    let g2 := g1.emit Event.lock
    let g3 := requestNodesLoop ops conn.RPCAddr g2 nodes
    let g4 := g3.emit (Event.save g3.nodes saveErr)
    let g5 :=
      match saveErr with
      | some e => g4.emit (Event.log (LogEntry.warnSaveFailed e))
      | none => g4
    (g5.emit Event.unlock, none)

/-! ## The node purger -/

/-- What one iteration of `permanentNodePurger` draws from its environment:
the visiting order of `range g.nodes` and the value of `fastrand.Intn` inside
`randomNode`, the results of the dial and of the handshake inside `pingNode`,
and the result of `g.save()`. -/
structure PurgerDraw where
  order : List NetAddress
  r : Int
  dialErr : Option GoError
  handshakeErr : Option GoError
  saveErr : Option GoError

/-- Source: the body of the loop of `Gateway.permanentNodePurger` after the
rate-limiting sleep, from "Get a random node for scanning" to the end.
`pruneNodeListLen` is a constant declared outside the modelled sources. -/
def purgerIteration (pruneNodeListLen : Nat) (g : Gateway) (d : PurgerDraw) :
    Gateway :=
  let g1 := (g.emit Event.rlock).emit Event.readNodes
  let numNodes := g1.nodes.card
  let picked := randomNode (g1.emit Event.readNodes) d.order d.r
  let g2 := (g1.emit Event.readNodes).emit Event.runlock
  match picked.2 with
  | some e =>
    if e = GoError.errNoNodes then g2
    else g2.emit (Event.log (LogEntry.errorRandomNode e))
  | none =>
    if numNodes ≤ pruneNodeListLen then g2
    else
      let g3 := ((g2.emit Event.rlock).emit Event.readPeers).emit Event.runlock
      if picked.1 ∈ g3.peers then g3
      else
        let pinged := pingNode g3 picked.1 d.dialErr d.handshakeErr
        match pinged.2 with
        | some e =>
          let g4 := (pinged.1.emit Event.lock).emit Event.writeNodes
          let g5 := (removeNode g4 picked.1).1
          let g6 := g5.emit (Event.save g5.nodes d.saveErr)
          (g6.emit Event.unlock).emit
            (Event.log (LogEntry.infoRemovingNode picked.1 e))
        | none => pinged.1

/-- A finite run of the purger: one iteration per draw, in order. -/
def purgerRun (pruneNodeListLen : Nat) (g : Gateway) (ds : List PurgerDraw) :
    Gateway :=
  ds.foldl (purgerIteration pruneNodeListLen) g

/-! ## The node manager -/

/-- What one iteration of `permanentNodeManager` draws from its environment.
`g.randomOutboundPeer` and `g.managedRPC` are declared outside the modelled
sources: the first is taken by its result (`peer`, `peerErr`); the second
either fails before it calls the function it is given (`rpcErr`) or runs
`g.requestNodes` on the connection `conn` and returns its error. -/
structure ManagerDraw where
  /-- The first `select` ends on `g.threads.StopChan()`. -/
  stopAtStart : Bool
  peer : NetAddress
  peerErr : Option GoError
  rpcErr : Option GoError
  conn : PeerConn
  saveErr : Option GoError
  /-- The second `select` ends on `g.threads.StopChan()`. -/
  stopWhileHealthy : Bool

/-- Source: the body of the loop of `Gateway.permanentNodeManager`.  The
Boolean result is true when the thread returns (shutdown) and false when the
loop goes on.  `healthyNodeListLen` is a constant declared outside the
modelled sources. -/
def managerIteration (healthyNodeListLen : Nat) (ops : AddrOps) (c : WireCodec)
    (g : Gateway) (d : ManagerDraw) : Gateway × Bool :=
  if d.stopAtStart then (g, true)
  else
    let g1 := ((g.emit (Event.sleep Delay.nodeListDelay)).emit Event.rlock).emit
      Event.readNodes
    let numNodes := g1.nodes.card
    let g2 := (g1.emit Event.readPeers).emit Event.runlock
    match d.peerErr with
    | some e =>
      if e = GoError.errNoPeers then (g2, false)
      else (g2.emit (Event.log (LogEntry.errorRandomPeer e)), false)
    | none =>
      if numNodes < healthyNodeListLen then
        let g3 := g2.emit (Event.rpcShareNodes d.peer)
        let res :=
          match d.rpcErr with
          | some e => (g3, some e)
          | none => requestNodes ops c g3 d.conn d.saveErr
        match res.2 with
        | some e => (res.1.emit (Event.log (LogEntry.warnRPCFailed d.peer e)), false)
        | none => (res.1, false)
      else if d.stopWhileHealthy then (g2, true)
      else (g2.emit (Event.sleep Delay.wellConnectedDelay), false)

/-! ## Standalone transaction validity (`types/validtransaction.go`) -/

/-- The package-level errors of validtransaction.go; `errorsNew` is any other
error (of `validSignatures`). -/
inductive TypesError where
  | ErrDoubleSpend
  | ErrNonZeroRevision
  | ErrTimelockNotSatisfied
  | ErrTransactionTooLarge
  | ErrZeroMinerFee
  | ErrZeroOutput
  | errorsNew (msg : String)
  deriving DecidableEq, Repr

/-- `types.Currency` holds a non-negative big integer; its declaration is
outside the modelled sources. -/
abbrev Currency := Nat

/-- `Currency.IsZero`. -/
def Currency.IsZero (c : Currency) : Bool := c == 0

/-- `types.CoinOutputID`, a hash; only its equality is used. -/
abbrev CoinOutputID := Nat

/-- `types.BlockStakeOutputID`, a hash; only its equality is used. -/
abbrev BlockStakeOutputID := Nat

/-- `types.BlockHeight`, a `uint64`. -/
abbrev BlockHeight := Nat

/-- The field of `types.UnlockConditions` that validtransaction.go reads. -/
structure UnlockConditions where
  Timelock : BlockHeight
  deriving DecidableEq, Repr

/-- The fields of `types.CoinInput` that validtransaction.go reads. -/
structure CoinInput where
  ParentID : CoinOutputID
  UnlockConditions : UnlockConditions
  deriving DecidableEq, Repr

/-- The field of `types.CoinOutput` that validtransaction.go reads. -/
structure CoinOutput where
  Value : Currency
  deriving DecidableEq, Repr

/-- The fields of `types.BlockStakeInput` that validtransaction.go reads. -/
structure BlockStakeInput where
  ParentID : BlockStakeOutputID
  UnlockConditions : UnlockConditions
  deriving DecidableEq, Repr

/-- The field of `types.BlockStakeOutput` that validtransaction.go reads. -/
structure BlockStakeOutput where
  Value : Currency
  deriving DecidableEq, Repr

/-- The fields of `types.Transaction` that validtransaction.go reads. -/
structure Transaction where
  CoinInputs : List CoinInput
  CoinOutputs : List CoinOutput
  BlockStakeInputs : List BlockStakeInput
  BlockStakeOutputs : List BlockStakeOutput
  MinerFees : List Currency
  deriving DecidableEq, Repr

/-- What validtransaction.go and update.go take from outside the modelled
sources: the constant `types.BlockSizeLimit`, the length of
`encoding.Marshal(t)` and `Transaction.validSignatures`. -/
structure TxEnv where
  BlockSizeLimit : Nat
  marshalLen : Transaction → Nat
  validSignatures : Transaction → BlockHeight → Option TypesError

/-- Source: `Transaction.fitsInABlock`.  The bound is the `uint64` value of
`BlockSizeLimit-5e3`, which wraps around below 5000. -/
def fitsInABlock (env : TxEnv) (t : Transaction) : Option TypesError :=
  if env.marshalLen t > (env.BlockSizeLimit + 2 ^ 64 - 5000) % 2 ^ 64 then
    some TypesError.ErrTransactionTooLarge
  else none

/-- Source: `Transaction.followsMinimumValues`.  Each loop returns at the
first zero value it meets. -/
def followsMinimumValues (t : Transaction) : Option TypesError :=
  if t.CoinOutputs.any (fun sco => sco.Value.IsZero) then
    some TypesError.ErrZeroOutput
  else if t.BlockStakeOutputs.any (fun bso => bso.Value.IsZero) then
    some TypesError.ErrZeroOutput
  else if t.MinerFees.any (fun fee => fee.IsZero) then
    some TypesError.ErrZeroMinerFee
  else none

/-- One loop of `noRepeats`: `seen` is the map of the parent IDs met so far. -/
def noRepeatsLoop : List Nat → Finset Nat → Option TypesError
  | [], _ => none
  | parentID :: rest, seen =>
    if parentID ∈ seen then some TypesError.ErrDoubleSpend
    else noRepeatsLoop rest (insert parentID seen)

/-- Source: `Transaction.noRepeats`. -/
def noRepeats (t : Transaction) : Option TypesError :=
  match noRepeatsLoop (t.CoinInputs.map (fun sci => sci.ParentID)) ∅ with
  | some e => some e
  | none => noRepeatsLoop (t.BlockStakeInputs.map (fun bsi => bsi.ParentID)) ∅

/-- Source: the function `validUnlockConditions`. -/
def validUnlockConditions (uc : UnlockConditions) (currentHeight : BlockHeight) :
    Option TypesError :=
  if uc.Timelock > currentHeight then some TypesError.ErrTimelockNotSatisfied
  else none

/-- The loops of `Transaction.validUnlockConditions`: the first error met. -/
def firstInvalidUnlock (currentHeight : BlockHeight) :
    List UnlockConditions → Option TypesError
  | [] => none
  | uc :: rest =>
    match validUnlockConditions uc currentHeight with
    | some e => some e
    | none => firstInvalidUnlock currentHeight rest

/-- Source: `Transaction.validUnlockConditions`. -/
def Transaction.validUnlockConditions (t : Transaction) (currentHeight : BlockHeight) :
    Option TypesError :=
  match firstInvalidUnlock currentHeight
      (t.CoinInputs.map (fun sci => sci.UnlockConditions)) with
  | some e => some e
  | none =>
    firstInvalidUnlock currentHeight
      (t.BlockStakeInputs.map (fun bsi => bsi.UnlockConditions))

/-- Source: `Transaction.StandaloneValid`. -/
def StandaloneValid (env : TxEnv) (t : Transaction) (currentHeight : BlockHeight) :
    Option TypesError :=
  match fitsInABlock env t with
  | some e => some e
  | none =>
    match noRepeats t with
    | some e => some e
    | none =>
      match followsMinimumValues t with
      | some e => some e
      | none =>
        match t.validUnlockConditions currentHeight with
        | some e => some e
        | none => env.validSignatures t currentHeight

/-! ## The block creator (`modules/blockcreator/update.go`) -/

/-- `types.BlockID`, a hash; only its equality is used. -/
abbrev BlockID := Nat

/-- `modules.ConsensusChangeID`, a hash; it is only copied. -/
abbrev ConsensusChangeID := Nat

/-- The part of `types.Block` that update.go uses: the value of `block.ID()`. -/
structure Block where
  ID : BlockID
  deriving DecidableEq, Repr

/-- The fields of `modules.ConsensusChange` that update.go reads. -/
structure ConsensusChange where
  ID : ConsensusChangeID
  RevertedBlocks : List Block
  AppliedBlocks : List Block
  deriving DecidableEq, Repr

/-- Lines written to `b.log` by update.go, one constructor per logging
statement. -/
inductive CreatorLogEntry where
  /-- `b.log.Critical("BlockCreator has detected a genesis block, but the
  height of the block creator is set to ", b.persist.Height)`. -/
  | criticalGenesisHeight (height : BlockHeight)
  /-- `b.log.Println(err)` after a failed save. -/
  | println (err : GoError)
  deriving DecidableEq, Repr

/-- The fields of `BlockCreator` that update.go reads or writes. -/
structure BlockCreator where
  /-- `b.persist.Height`. -/
  Height : BlockHeight
  /-- `b.unsolvedBlock.Transactions`. -/
  unsolvedTransactions : List Transaction
  /-- `b.persist.RecentChange`. -/
  RecentChange : ConsensusChangeID
  /-- The lines written to `b.log`, oldest first. -/
  log : List CreatorLogEntry

/-- The loop of `ReceiveUpdatedUnconfirmedTransactions`: the value of `i`
when the loop ends, from the current index `i` and `remainingSize`. -/
def receiveLoop (env : TxEnv) : List Transaction → Nat → Int → Nat
  | [], i, _ => i
  | t :: rest, i, remainingSize =>
    if remainingSize - (env.marshalLen t : Int) < 0 then i
    else
      match rest with
      | [] => i
      | _ :: _ => receiveLoop env rest (i + 1) (remainingSize - (env.marshalLen t : Int))

/-- Source: `BlockCreator.ReceiveUpdatedUnconfirmedTransactions`. -/
def ReceiveUpdatedUnconfirmedTransactions (env : TxEnv) (b : BlockCreator)
    (unconfirmedTransactions : List Transaction) : BlockCreator :=
  if unconfirmedTransactions.length = 0 then
    { b with unsolvedTransactions := [] }
  else
    let i := receiveLoop env unconfirmedTransactions 0
      ((env.BlockSizeLimit : Int) - 5000)
    { b with unsolvedTransactions := unconfirmedTransactions.take (i + 1) }

/-- The body of the loop of `ProcessConsensusChange` over
`cc.RevertedBlocks`.  `b.persist.Height` is a `uint64`, so `Height--` wraps
around.  `GenesisID` is `types.GenesisID`, declared outside the modelled
sources. -/
def revertBlock (GenesisID : BlockID) (b : BlockCreator) (block : Block) :
    BlockCreator :=
  if b.Height > 0 ∨ block.ID ≠ GenesisID then
    { b with Height := (b.Height + 2 ^ 64 - 1) % 2 ^ 64 }
  else if b.Height ≠ 0 then
    { b with
      log := b.log ++ [CreatorLogEntry.criticalGenesisHeight b.Height]
      Height := 0 }
  else b

/-- The body of the loop of `ProcessConsensusChange` over
`cc.AppliedBlocks`; `Height++` on a `uint64`. -/
def applyBlock (GenesisID : BlockID) (b : BlockCreator) (block : Block) :
    BlockCreator :=
  if b.Height > 0 ∨ block.ID ≠ GenesisID then
    { b with Height := (b.Height + 1) % 2 ^ 64 }
  else if b.Height ≠ 0 then
    { b with
      log := b.log ++ [CreatorLogEntry.criticalGenesisHeight b.Height]
      Height := 0 }
  else b

/-- Source: `BlockCreator.ProcessConsensusChange`.  `saveErr` is the result
of `b.save()`. -/
def ProcessConsensusChange (GenesisID : BlockID) (b : BlockCreator)
    (cc : ConsensusChange) (saveErr : Option GoError) : BlockCreator :=
  let b1 := cc.RevertedBlocks.foldl (revertBlock GenesisID) b
  let b2 := cc.AppliedBlocks.foldl (applyBlock GenesisID) b1
  let b3 := { b2 with RecentChange := cc.ID }
  match saveErr with
  | some err => { b3 with log := b3.log ++ [CreatorLogEntry.println err] }
  | none => b3

/-- Total encoded size of a list of transactions. -/
def totalSize (env : TxEnv) (txs : List Transaction) : Nat :=
  (txs.map env.marshalLen).sum

/-! ## Properties of states and traces -/

/-- The node-set invariant of the spec (3, NetAddress and NodeSet): every
member differs from the own address, passes the address-format validation and
has a host that parses as an IP literal. -/
def NodesValid (ops : AddrOps) (g : Gateway) : Prop :=
  ∀ a ∈ g.nodes, a ≠ g.myAddr ∧ ops.IsStdValid a = none
    ∧ ops.ParseIP (ops.Host a) ≠ none

instance (ops : AddrOps) (g : Gateway) : Decidable (NodesValid ops g) := by
  unfold NodesValid
  infer_instance

/-- How the gateway lock `g.mu` is held by the running function. -/
inductive LockState where
  | free
  | readHeld
  | writeHeld
  deriving DecidableEq, Repr

/-- One step of the lock discipline of the spec (5): the lock is acquired
only when free and released only in the mode it is held; `g.nodes` and
`g.peers` are read, and `g.save()` runs, only with the lock held; `g.nodes` is
written only with the write lock held; a network operation (wire read or
write, dial, handshake, RPC) happens only with the lock free.  `none` is a
violation. -/
def lockStep : LockState → Event → Option LockState
  | LockState.free, Event.rlock => some LockState.readHeld
  | LockState.free, Event.lock => some LockState.writeHeld
  | LockState.readHeld, Event.runlock => some LockState.free
  | LockState.writeHeld, Event.unlock => some LockState.free
  | _, Event.rlock => none
  | _, Event.lock => none
  | _, Event.runlock => none
  | _, Event.unlock => none
  | s, Event.readNodes => if s = LockState.free then none else some s
  | s, Event.readPeers => if s = LockState.free then none else some s
  | s, Event.save _ _ => if s = LockState.free then none else some s
  | s, Event.writeNodes => if s = LockState.writeHeld then some s else none
  | s, Event.readObject => if s = LockState.free then some s else none
  | s, Event.writeObject _ => if s = LockState.free then some s else none
  | s, Event.dial _ => if s = LockState.free then some s else none
  | s, Event.handshake _ => if s = LockState.free then some s else none
  | s, Event.rpcShareNodes _ => if s = LockState.free then some s else none
  | s, Event.setDeadline => some s
  | s, Event.log _ => some s
  | s, Event.sleep _ => some s

/-- The lock discipline along a list of events: the lock state at the end,
or `none` when some event violates the discipline. -/
def lockRun : LockState → List Event → Option LockState
  | s, [] => some s
  | s, e :: rest =>
    match lockStep s e with
    | none => none
    | some s1 => lockRun s1 rest

/-- The event is a call of `g.save()`. -/
def Event.isSave : Event → Bool
  | Event.save _ _ => true
  | _ => false

/-- The event is an entry of the log. -/
def Event.isLog : Event → Bool
  | Event.log _ => true
  | _ => false

/-- The event is a dial or a handshake. -/
def Event.isPing : Event → Bool
  | Event.dial _ => true
  | Event.handshake _ => true
  | _ => false

/-- The event is the ShareNodes RPC. -/
def Event.isRPC : Event → Bool
  | Event.rpcShareNodes _ => true
  | _ => false

/-- The events that a step from `g` to `g1` appended to the trace. -/
def newEvents (g g1 : Gateway) : List Event :=
  g1.trace.drop g.trace.length

/-! ## Concrete instances used to evaluate the definitions -/

/-- Split a list of characters at the dots. -/
def splitAtDots : List Char → List (List Char)
  | [] => [[]]
  | c :: rest =>
    if c = '.' then [] :: splitAtDots rest
    else
      match splitAtDots rest with
      | [] => [[c]]
      | field :: fields => (c :: field) :: fields

/-- The value of a non-empty run of at most `width` decimal digits. -/
def decimalValue (width : Nat) (cs : List Char) : Option Nat :=
  if cs ≠ [] ∧ cs.length ≤ width ∧ cs.all Char.isDigit = true then
    some (cs.foldl (fun n c => 10 * n + (c.toNat - 48)) 0)
  else none

/-- An IPv4 literal: four decimal fields of at most 255, separated by dots. -/
def parseIPv4 (h : String) : Option (List Nat) :=
  match (splitAtDots h.data).map (decimalValue 3) with
  | [some a, some b, some c, some d] =>
    if a ≤ 255 ∧ b ≤ 255 ∧ c ≤ 255 ∧ d ≤ 255 then some [a, b, c, d] else none
  | _ => none

/-- An instance of the address methods, for IPv4 addresses written
`host:port`: the host is what precedes the first colon and the port what
follows it; an address is valid when its host is not empty and its port is a
decimal number from 1 to 65535; a host is an IP literal when it is an IPv4
dotted quad; loopback addresses start with `127.` and local ones are the
loopback ones and those starting with `10.`. -/
def sampleOps : AddrOps where
  IsStdValid := fun a =>
    match decimalValue 5 ((a.data.dropWhile (fun c => c != ':')).drop 1) with
    | none => some (GoError.errorsNew "port is not an integer")
    | some port =>
      if a.data.takeWhile (fun c => c != ':') ≠ [] ∧ 1 ≤ port ∧ port ≤ 65535 then none
      else some (GoError.errorsNew "port is invalid")
  Host := fun a => String.mk (a.data.takeWhile (fun c => c != ':'))
  ParseIP := parseIPv4
  IsLoopback := fun a => a.data.take 4 = ['1', '2', '7', '.']
  IsLocal := fun a =>
    a.data.take 4 = ['1', '2', '7', '.'] || a.data.take 3 = ['1', '0', '.']

/-- An instance of the wire encoding: an 8-byte length before the sequence
and before each address, and a maximum encoded address length of 266. -/
def sampleCodec : WireCodec where
  seqOverhead := 8
  encodedLen := fun a => 8 + a.data.length
  MaxEncodedNetAddressLength := 266

/-- A gateway with the own address `9.9.9.9:9` that knows no node. -/
def emptyGateway : Gateway :=
  { myAddr := "9.9.9.9:9", nodes := ∅, peers := ∅, trace := [] }

/-- A connection on which the remote end sends three valid addresses. -/
def threeNodeConn : PeerConn :=
  { RPCAddr := "5.5.5.5:5"
    RemoteAddr := "5.5.5.5:5"
    incoming := { readErr := none, entries := ["1.1.1.1:1", "2.2.2.2:2", "3.3.3.3:3"] }
    writeErr := none }

/-- A gateway whose node set holds three addresses, one of them a peer. -/
def threeNodeGateway : Gateway :=
  { myAddr := "9.9.9.9:9"
    nodes := {"1.1.1.1:1", "2.2.2.2:2", "3.3.3.3:3"}
    peers := {"3.3.3.3:3"}
    trace := [] }

/-- A draw of the purger that picks the first node of the order, whose dial
succeeds and whose handshake fails. -/
def failingDraw : PurgerDraw :=
  { order := ["1.1.1.1:1", "2.2.2.2:2", "3.3.3.3:3"]
    r := 0
    dialErr := none
    handshakeErr := some GoError.errPeerGenesisID
    saveErr := none }

/-- A gateway that knows a loopback node, a private node and a public node. -/
def mixedGateway : Gateway :=
  { myAddr := "9.9.9.9:9"
    nodes := {"127.0.0.1:1", "10.0.0.1:1", "3.3.3.3:3"}
    peers := ∅
    trace := [] }

/-- A connection on which the remote end sends eleven short valid addresses. -/
def elevenNodeConn : PeerConn :=
  { RPCAddr := "5.5.5.5:5"
    RemoteAddr := "5.5.5.5:5"
    incoming :=
      { readErr := none
        entries := ["1.0.0.1:1", "1.0.0.2:1", "1.0.0.3:1", "1.0.0.4:1", "1.0.0.5:1",
          "1.0.0.6:1", "1.0.0.7:1", "1.0.0.8:1", "1.0.0.9:1", "1.0.0.10:1", "1.0.0.11:1"] }
    writeErr := none }

/-- A connection on which the remote end sends one address of 272 bytes. -/
def longAddrConn : PeerConn :=
  { RPCAddr := "5.5.5.5:5"
    RemoteAddr := "5.5.5.5:5"
    incoming :=
      { readErr := none
        entries := [String.mk (List.replicate 270 '1' ++ [':', '1'])] }
    writeErr := none }

/-- A connection on which the remote end sends two hundred addresses. -/
def floodConn : PeerConn :=
  { RPCAddr := "5.5.5.5:5"
    RemoteAddr := "5.5.5.5:5"
    incoming := { readErr := none, entries := List.replicate 200 "1.1.1.1:1" }
    writeErr := none }

/-- The error of a save that fails. -/
def diskFull : GoError := GoError.errorsNew "no space left on device"

/-- A draw of the manager that picks the peer `3.3.3.3:3`, whose RPC answers
with three valid addresses. -/
def managerDraw : ManagerDraw :=
  { stopAtStart := false
    peer := "3.3.3.3:3"
    peerErr := none
    rpcErr := none
    conn := threeNodeConn
    saveErr := none
    stopWhileHealthy := false }

/-- A cost model in which every transaction encodes to 1,000,000 bytes, with
the block size limit of 2,000,000 bytes; every signature check passes. -/
def megabyteTxEnv : TxEnv :=
  { BlockSizeLimit := 2000000
    marshalLen := fun _ => 1000000
    validSignatures := fun _ _ => none }

/-- A transaction with one coin output and the given miner fee. -/
def feeTx (fee : Currency) : Transaction :=
  { CoinInputs := []
    CoinOutputs := [{ Value := 5 }]
    BlockStakeInputs := []
    BlockStakeOutputs := []
    MinerFees := [fee] }

/-- A transaction that spends the coin output 7 twice. -/
def doubleSpendTx : Transaction :=
  { CoinInputs := [{ ParentID := 7, UnlockConditions := { Timelock := 0 } },
      { ParentID := 8, UnlockConditions := { Timelock := 0 } },
      { ParentID := 7, UnlockConditions := { Timelock := 0 } }]
    CoinOutputs := [{ Value := 5 }]
    BlockStakeInputs := []
    BlockStakeOutputs := []
    MinerFees := [1] }

/-- A block creator at height 3 with no unsolved transactions. -/
def idleBlockCreator : BlockCreator :=
  { Height := 3, unsolvedTransactions := [], RecentChange := 0, log := [] }

/-- A consensus change that applies the genesis block, whose ID is 0. -/
def applyGenesisChange : ConsensusChange :=
  { ID := 9, RevertedBlocks := [], AppliedBlocks := [{ ID := 0 }] }

/-- A consensus change that reverts the genesis block, whose ID is 0. -/
def revertGenesisChange : ConsensusChange :=
  { ID := 9, RevertedBlocks := [{ ID := 0 }], AppliedBlocks := [] }

/-! ## Lemmas on the basic operations -/

theorem emit_nodes (g : Gateway) (e : Event) : (g.emit e).nodes = g.nodes := rfl

theorem emit_myAddr (g : Gateway) (e : Event) : (g.emit e).myAddr = g.myAddr := rfl

theorem emit_peers (g : Gateway) (e : Event) : (g.emit e).peers = g.peers := rfl

theorem addNode_myAddr (ops : AddrOps) (g : Gateway) (a : NetAddress) :
    (addNode ops g a).1.myAddr = g.myAddr := by
  unfold addNode
  split_ifs <;> rfl

theorem addNode_mem (ops : AddrOps) (g : Gateway) (a b : NetAddress) :
    b ∈ (addNode ops g a).1.nodes ↔
      b ∈ g.nodes ∨ (b = a ∧ a ≠ g.myAddr ∧ ops.IsStdValid a = none
        ∧ ops.ParseIP (ops.Host a) ≠ none) := by
  unfold addNode
  split_ifs with h1 h2 h3 h4
  · simp [h1]
  · constructor
    · intro h; exact Or.inl h
    · rintro (h | ⟨rfl, -⟩)
      · exact h
      · exact h2
  · simp only [ne_eq] at h3
    simp [h3]
  · simp [h4]
  · simp only [ne_eq, not_not] at h3
    simp only [Finset.mem_insert]
    constructor
    · rintro (rfl | h)
      · exact Or.inr ⟨rfl, h1, h3, h4⟩
      · exact Or.inl h
    · rintro (h | ⟨rfl, -⟩)
      · exact Or.inr h
      · exact Or.inl rfl

theorem requestNodesLoop_myAddr (ops : AddrOps) (rpcAddr : NetAddress)
    (L : List NetAddress) (g : Gateway) :
    (requestNodesLoop ops rpcAddr g L).myAddr = g.myAddr := by
  induction L generalizing g with
  | nil => rfl
  | cons a rest ih =>
    rw [requestNodesLoop]
    split_ifs
    · rw [ih, emit_myAddr, addNode_myAddr, emit_myAddr]
    · rw [ih, addNode_myAddr, emit_myAddr]

theorem requestNodesLoop_mem (ops : AddrOps) (rpcAddr : NetAddress)
    (L : List NetAddress) (g : Gateway) (b : NetAddress) :
    b ∈ (requestNodesLoop ops rpcAddr g L).nodes ↔
      b ∈ g.nodes ∨ (b ∈ L ∧ b ≠ g.myAddr ∧ ops.IsStdValid b = none
        ∧ ops.ParseIP (ops.Host b) ≠ none) := by
  induction L generalizing g with
  | nil => simp [requestNodesLoop]
  | cons a rest ih =>
    have key : (b ∈ (addNode ops g a).1.nodes ∨
        (b ∈ rest ∧ b ≠ g.myAddr ∧ ops.IsStdValid b = none
          ∧ ops.ParseIP (ops.Host b) ≠ none)) ↔
        (b ∈ g.nodes ∨ (b ∈ a :: rest ∧ b ≠ g.myAddr ∧ ops.IsStdValid b = none
          ∧ ops.ParseIP (ops.Host b) ≠ none)) := by
      rw [addNode_mem, List.mem_cons]
      constructor
      · rintro ((h | ⟨rfl, h⟩) | ⟨h, h'⟩)
        · exact Or.inl h
        · exact Or.inr ⟨Or.inl rfl, h⟩
        · exact Or.inr ⟨Or.inr h, h'⟩
      · rintro (h | ⟨rfl | h, h'⟩)
        · exact Or.inl (Or.inl h)
        · exact Or.inl (Or.inr ⟨rfl, h'⟩)
        · exact Or.inr ⟨h, h'⟩
    have hmem : b ∈ (addNode ops (g.emit Event.writeNodes) a).1.nodes ↔
        b ∈ (addNode ops g a).1.nodes := by
      rw [addNode_mem, addNode_mem]
      rfl
    rw [requestNodesLoop]
    split_ifs
    · rw [ih, emit_nodes, emit_myAddr, addNode_myAddr, emit_myAddr, hmem]
      exact key
    · rw [ih, addNode_myAddr, emit_myAddr, hmem]
      exact key

theorem requestNodes_ok (ops : AddrOps) (c : WireCodec) (g : Gateway)
    (conn : PeerConn) (saveErr : Option GoError) (L : List NetAddress)
    (hread : ReadObject c conn.incoming
      ((maxSharedNodes * c.MaxEncodedNetAddressLength) % 2 ^ 64) = Except.ok L) :
    (requestNodes ops c g conn saveErr).2 = none ∧
    (requestNodes ops c g conn saveErr).1.nodes =
      (requestNodesLoop ops conn.RPCAddr
        (((g.emit Event.setDeadline).emit Event.readObject).emit Event.lock) L).nodes := by
  unfold requestNodes
  simp only [hread]
  cases saveErr <;> simp [emit_nodes]

theorem randomNode_emit (g : Gateway) (e : Event) (order : List NetAddress) (r : Int) :
    randomNode (g.emit e) order r = randomNode g order r := rfl

theorem pingNode_nodes (g : Gateway) (a : NetAddress) (de he : Option GoError) :
    (pingNode g a de he).1.nodes = g.nodes := by
  unfold pingNode
  cases de <;> rfl

theorem pingNode_err (g g' : Gateway) (a : NetAddress) (de he : Option GoError) :
    (pingNode g a de he).2 = (pingNode g' a de he).2 := by
  unfold pingNode
  cases de <;> rfl

/-- What pingNode returns: the error of the dial when the dial fails, and
otherwise the result of the handshake. -/
theorem pingNode_result (g : Gateway) (a : NetAddress) (de he : Option GoError) :
    (pingNode g a de he).2 = (match de with
      | some e => some e
      | none => he) := by
  unfold pingNode
  cases de <;> rfl

theorem pingNode_fails_iff (g : Gateway) (a : NetAddress) (de he : Option GoError) :
    (pingNode g a de he).2 ≠ none ↔ (de ≠ none ∨ he ≠ none) := by
  rw [pingNode_result]
  cases de <;> simp

theorem removeNode_nodes (g : Gateway) (a : NetAddress) :
    (removeNode g a).1.nodes = g.nodes.erase a := by
  unfold removeNode
  split_ifs with h
  · rfl
  · exact (Finset.erase_eq_of_not_mem h).symm

/-- The node set after one purger iteration. -/
theorem purgerIteration_nodes (p : Nat) (g : Gateway) (d : PurgerDraw) :
    (purgerIteration p g d).nodes =
      if (randomNode g d.order d.r).2 = none ∧ p < g.nodes.card
          ∧ (randomNode g d.order d.r).1 ∉ g.peers
          ∧ (pingNode g (randomNode g d.order d.r).1 d.dialErr d.handshakeErr).2 ≠ none
      then g.nodes.erase (randomNode g d.order d.r).1 else g.nodes := by
  unfold purgerIteration
  simp only [randomNode_emit, emit_nodes, emit_peers]
  generalize randomNode g d.order d.r = picked
  obtain ⟨node, err⟩ := picked
  cases err with
  | some e =>
    simp only [reduceCtorEq, false_and, if_false]
    split_ifs <;> rfl
  | none =>
    simp only [true_and]
    by_cases h1 : g.nodes.card ≤ p
    · simp [h1, Nat.not_lt.mpr h1, emit_nodes]
    · by_cases h2 : node ∈ g.peers
      · simp [h1, h2, emit_nodes]
      · have hp := pingNode_err
          (((((((g.emit Event.rlock).emit Event.readNodes).emit Event.readNodes).emit
            Event.runlock).emit Event.rlock).emit Event.readPeers).emit Event.runlock)
          g node d.dialErr d.handshakeErr
        cases hq : (pingNode g node d.dialErr d.handshakeErr).2 with
        | none =>
          rw [hq] at hp
          simp [h1, h2, hp, pingNode_nodes, emit_nodes]
        | some e =>
          rw [hq] at hp
          simp [h1, h2, hp, pingNode_nodes, emit_nodes, removeNode_nodes, Nat.lt_of_not_le h1]

theorem purgerIteration_subset (p : Nat) (g : Gateway) (d : PurgerDraw) :
    (purgerIteration p g d).nodes ⊆ g.nodes := by
  rw [purgerIteration_nodes]
  split_ifs
  · exact Finset.erase_subset _ _
  · exact Finset.Subset.refl _

theorem purgerIteration_card (p : Nat) (g : Gateway) (d : PurgerDraw) :
    g.nodes.card ≤ (purgerIteration p g d).nodes.card + 1 := by
  rw [purgerIteration_nodes]
  split_ifs
  · have := Finset.pred_card_le_card_erase
      (s := g.nodes) (a := (randomNode g d.order d.r).1)
    omega
  · omega

theorem purgerIteration_floor (p : Nat) (g : Gateway) (d : PurgerDraw)
    (h : p ≤ g.nodes.card) : p ≤ (purgerIteration p g d).nodes.card := by
  rw [purgerIteration_nodes]
  split_ifs with hc
  · have := Finset.pred_card_le_card_erase
      (s := g.nodes) (a := (randomNode g d.order d.r).1)
    omega
  · exact h

theorem purgerIteration_at_floor (p : Nat) (g : Gateway) (d : PurgerDraw)
    (h : g.nodes.card ≤ p) : (purgerIteration p g d).nodes = g.nodes := by
  rw [purgerIteration_nodes]
  split_ifs with hc
  · omega
  · rfl

theorem purgerRun_floor (p : Nat) (ds : List PurgerDraw) (g : Gateway)
    (h : p ≤ g.nodes.card) : p ≤ (purgerRun p g ds).nodes.card := by
  induction ds generalizing g with
  | nil => exact h
  | cons d rest ih =>
    exact ih (purgerIteration p g d) (purgerIteration_floor p g d h)

theorem purgerRun_at_floor (p : Nat) (ds : List PurgerDraw) (g : Gateway)
    (h : g.nodes.card ≤ p) : (purgerRun p g ds).nodes = g.nodes := by
  induction ds generalizing g with
  | nil => rfl
  | cons d rest ih =>
    have h1 := purgerIteration_at_floor p g d h
    have h2 := ih (purgerIteration p g d) (by rw [h1]; exact h)
    exact h2.trans h1

theorem randomNodeScan_nat (order : List NetAddress) (n : Nat) (a : NetAddress)
    (h : order.get? n = some a) : randomNodeScan order (n : Int) = (a, none) := by
  induction order generalizing n with
  | nil => simp at h
  | cons x rest ih =>
    cases n with
    | zero =>
      simp only [List.get?_cons_zero, Option.some.injEq] at h
      simp [randomNodeScan, h]
    | succ m =>
      simp only [List.get?_cons_succ] at h
      have hpos : ¬ ((m + 1 : Nat) : Int) ≤ 0 := by omega
      rw [randomNodeScan, if_neg hpos]
      have : ((m + 1 : Nat) : Int) - 1 = (m : Int) := by omega
      rw [this]
      exact ih m h

theorem randomNodeScan_mem (order : List NetAddress) (r : Int) (a : NetAddress)
    (h : randomNodeScan order r = (a, none)) : a ∈ order := by
  induction order generalizing r with
  | nil => simp [randomNodeScan] at h
  | cons x rest ih =>
    rw [randomNodeScan] at h
    split_ifs at h
    · simp only [Prod.mk.injEq, and_true] at h
      rw [← h]
      exact List.mem_cons_self _ _
    · exact List.mem_cons_of_mem _ (ih _ h)

theorem Enumerates.length_eq {s : Finset NetAddress} {order : List NetAddress}
    (h : Enumerates s order) : order.length = s.card := by
  have hs : order.toFinset = s := by
    ext a
    rw [List.mem_toFinset]
    exact h.2 a
  rw [← hs, List.toFinset_card_of_nodup h.1]

theorem randomNode_index (g : Gateway) (order : List NetAddress) (r : Int)
    (henum : Enumerates g.nodes order) (h0 : 0 ≤ r) (hr : r < g.nodes.card) :
    ∃ a, order.get? r.toNat = some a ∧ randomNode g order r = (a, none) := by
  have hlen := henum.length_eq
  have hlt : r.toNat < order.length := by omega
  refine ⟨order.get ⟨r.toNat, hlt⟩, List.get?_eq_get hlt, ?_⟩
  have hcard : g.nodes.card ≠ 0 := by omega
  rw [randomNode, if_neg hcard]
  have hrr : ((r.toNat : Nat) : Int) = r := Int.toNat_of_nonneg h0
  have := randomNodeScan_nat order r.toNat _ (List.get?_eq_get hlt)
  rw [hrr] at this
  exact this

/-! ### shareNodes -/

theorem shareCandidates_mem (ops : AddrOps) (remoteNA : NetAddress)
    (order : List NetAddress) (a : NetAddress) :
    a ∈ shareCandidates ops remoteNA order ↔
      a ∈ order ∧ (ops.IsLoopback a = true → ops.IsLoopback remoteNA = true)
        ∧ (ops.IsLocal a = true → ops.IsLocal remoteNA = true) := by
  induction order with
  | nil => simp [shareCandidates]
  | cons x rest ih =>
    rw [shareCandidates]
    split_ifs with h1 h2
    · rw [ih, List.mem_cons]
      simp only [Bool.and_eq_true, Bool.not_eq_true'] at h1
      constructor
      · rintro ⟨h, h'⟩
        exact ⟨Or.inr h, h'⟩
      · rintro ⟨rfl | h, hl, hp⟩
        · rw [hl h1.1] at h1
          exact absurd h1.2 (by simp)
        · exact ⟨h, hl, hp⟩
    · rw [ih, List.mem_cons]
      simp only [Bool.and_eq_true, Bool.not_eq_true'] at h2
      constructor
      · rintro ⟨h, h'⟩
        exact ⟨Or.inr h, h'⟩
      · rintro ⟨rfl | h, hl, hp⟩
        · rw [hp h2.1] at h2
          exact absurd h2.2 (by simp)
        · exact ⟨h, hl, hp⟩
    · rw [List.mem_cons, ih, List.mem_cons]
      simp only [Bool.and_eq_true, Bool.not_eq_true', not_and, Bool.not_eq_false] at h1 h2
      constructor
      · rintro (rfl | ⟨h, h'⟩)
        · exact ⟨Or.inl rfl, h1, h2⟩
        · exact ⟨Or.inr h, h'⟩
      · rintro ⟨rfl | h, h'⟩
        · exact Or.inl rfl
        · exact Or.inr ⟨h, h'⟩

theorem shareCandidates_sublist (ops : AddrOps) (remoteNA : NetAddress)
    (order : List NetAddress) :
    (shareCandidates ops remoteNA order).Sublist order := by
  induction order with
  | nil => exact List.Sublist.slnil
  | cons x rest ih =>
    rw [shareCandidates]
    split_ifs
    · exact List.Sublist.cons x ih
    · exact List.Sublist.cons x ih
    · exact List.Sublist.cons₂ x ih

theorem shareSelect_eq (gnodes : List NetAddress) (perm : List Nat)
    (acc : List NetAddress) (hperm : ∀ i ∈ perm, i < gnodes.length)
    (hacc : acc.length < maxSharedNodes) :
    shareSelect gnodes perm acc =
      some (acc ++ (perm.take (maxSharedNodes - acc.length)).map
        (fun i => (gnodes.get? i).getD "")) := by
  induction perm generalizing acc with
  | nil => simp [shareSelect]
  | cons i rest ih =>
    have hi : i < gnodes.length := hperm i (List.mem_cons_self _ _)
    have hget : gnodes.get? i = some (gnodes.get ⟨i, hi⟩) := List.get?_eq_get hi
    have hsplit : maxSharedNodes - acc.length
        = (maxSharedNodes - (acc.length + 1)) + 1 := by omega
    rw [shareSelect, hget]
    simp only
    split_ifs with hlen
    · have h9 : maxSharedNodes - acc.length = 1 := by
        simp only [List.length_append, List.length_singleton] at hlen
        omega
      rw [h9]
      simp [List.getElem?_eq_getElem hi]
    · have hlt : (acc ++ [gnodes.get ⟨i, hi⟩]).length < maxSharedNodes := by
        simp only [List.length_append, List.length_singleton] at hlen ⊢
        omega
      rw [ih (acc ++ [gnodes.get ⟨i, hi⟩])
        (fun j hj => hperm j (List.mem_cons_of_mem _ hj)) hlt, hsplit]
      simp [List.getElem?_eq_getElem hi]

/-- The list that shareNodes writes, when the drawn permutation is one of
the indices of the candidates. -/
theorem shareNodes_written (ops : AddrOps) (g : Gateway) (conn : PeerConn)
    (order : List NetAddress) (perm : List Nat)
    (hperm : perm.Perm (List.range (shareCandidates ops conn.RemoteAddr order).length)) :
    shareNodes ops g conn order perm =
      some ((((((g.emit Event.setDeadline).emit Event.rlock).emit Event.readNodes).emit
          Event.runlock).emit
          (Event.writeObject ((perm.take maxSharedNodes).map
            (fun i => ((shareCandidates ops conn.RemoteAddr order).get? i).getD "")))),
        (perm.take maxSharedNodes).map
          (fun i => ((shareCandidates ops conn.RemoteAddr order).get? i).getD ""),
        conn.writeErr) := by
  have hlt : ∀ i ∈ perm, i < (shareCandidates ops conn.RemoteAddr order).length :=
    fun i hi => List.mem_range.mp (hperm.mem_iff.mp hi)
  have h := shareSelect_eq (shareCandidates ops conn.RemoteAddr order) perm [] hlt
    (by simp [maxSharedNodes])
  simp only [List.length_nil, Nat.sub_zero, List.nil_append] at h
  unfold shareNodes
  simp only [h]

theorem written_mem_candidates (gnodes : List NetAddress) (perm : List Nat) (k : Nat)
    (hperm : ∀ i ∈ perm, i < gnodes.length) (a : NetAddress)
    (ha : a ∈ (perm.take k).map (fun i => (gnodes.get? i).getD "")) : a ∈ gnodes := by
  obtain ⟨i, hi, rfl⟩ := List.mem_map.mp ha
  have hlt := hperm i (List.mem_of_mem_take hi)
  simp only [List.get?_eq_get hlt, Option.getD_some]
  exact List.get_mem _ _ _

theorem shareCandidates_card (ops : AddrOps) (remoteNA : NetAddress)
    (s : Finset NetAddress) (order : List NetAddress) (henum : Enumerates s order) :
    (shareCandidates ops remoteNA order).length =
      (s.filter (fun a => (ops.IsLoopback a = true → ops.IsLoopback remoteNA = true)
        ∧ (ops.IsLocal a = true → ops.IsLocal remoteNA = true))).card := by
  have hnd : (shareCandidates ops remoteNA order).Nodup :=
    henum.1.sublist (shareCandidates_sublist ops remoteNA order)
  rw [← List.toFinset_card_of_nodup hnd]
  congr 1
  ext a
  rw [List.mem_toFinset, shareCandidates_mem, Finset.mem_filter, henum.2 a]

theorem written_nodup (gnodes : List NetAddress) (perm : List Nat) (k : Nat)
    (hg : gnodes.Nodup) (hp : perm.Nodup) (hperm : ∀ i ∈ perm, i < gnodes.length) :
    ((perm.take k).map (fun i => (gnodes.get? i).getD "")).Nodup := by
  refine List.Nodup.map_on ?_ (hp.sublist (List.take_sublist _ _))
  intro x hx y hy hxy
  have hxl := hperm x (List.mem_of_mem_take hx)
  have hyl := hperm y (List.mem_of_mem_take hy)
  simp only [List.get?_eq_get hxl, List.get?_eq_get hyl, Option.getD_some] at hxy
  exact congrArg Fin.val ((List.Nodup.get_inj_iff hg).mp hxy)

theorem written_complete (gnodes : List NetAddress) (perm : List Nat) (k : Nat)
    (hperm : perm.Perm (List.range gnodes.length)) (hk : gnodes.length ≤ k)
    (a : NetAddress) (ha : a ∈ gnodes) :
    a ∈ (perm.take k).map (fun i => (gnodes.get? i).getD "") := by
  have hlen : perm.length ≤ k := by
    rw [hperm.length_eq, List.length_range]
    exact hk
  rw [List.take_of_length_le hlen]
  obtain ⟨i, hi⟩ := List.get_of_mem ha
  refine List.mem_map.mpr ⟨i.1, hperm.mem_iff.mpr (List.mem_range.mpr i.2), ?_⟩
  simp only [List.get?_eq_get i.2, Option.getD_some]
  exact hi

/-! ### Frame lemmas: what the operations leave untouched -/

theorem removeNode_myAddr (g : Gateway) (a : NetAddress) :
    (removeNode g a).1.myAddr = g.myAddr := by
  unfold removeNode
  split_ifs <;> rfl

theorem removeNode_peers (g : Gateway) (a : NetAddress) :
    (removeNode g a).1.peers = g.peers := by
  unfold removeNode
  split_ifs <;> rfl

theorem addNode_peers (ops : AddrOps) (g : Gateway) (a : NetAddress) :
    (addNode ops g a).1.peers = g.peers := by
  unfold addNode
  split_ifs <;> rfl

theorem pingNode_myAddr (g : Gateway) (a : NetAddress) (de he : Option GoError) :
    (pingNode g a de he).1.myAddr = g.myAddr := by
  unfold pingNode
  cases de <;> rfl

theorem pingNode_peers (g : Gateway) (a : NetAddress) (de he : Option GoError) :
    (pingNode g a de he).1.peers = g.peers := by
  unfold pingNode
  cases de <;> rfl

theorem purgerIteration_frame (p : Nat) (g : Gateway) (d : PurgerDraw) :
    (purgerIteration p g d).myAddr = g.myAddr ∧
    (purgerIteration p g d).peers = g.peers := by
  unfold purgerIteration
  simp only
  split
  · split_ifs <;> exact ⟨rfl, rfl⟩
  · split_ifs
    · exact ⟨rfl, rfl⟩
    · exact ⟨rfl, rfl⟩
    · split
      · simp only [emit_myAddr, emit_peers, removeNode_myAddr, removeNode_peers,
          pingNode_myAddr, pingNode_peers, and_self]
      · simp only [emit_myAddr, emit_peers, pingNode_myAddr, pingNode_peers, and_self]

theorem requestNodesLoop_peers (ops : AddrOps) (rpcAddr : NetAddress)
    (L : List NetAddress) (g : Gateway) :
    (requestNodesLoop ops rpcAddr g L).peers = g.peers := by
  induction L generalizing g with
  | nil => rfl
  | cons a rest ih =>
    rw [requestNodesLoop]
    split_ifs
    · rw [ih, emit_peers, addNode_peers, emit_peers]
    · rw [ih, addNode_peers, emit_peers]

theorem requestNodes_frame (ops : AddrOps) (c : WireCodec) (g : Gateway)
    (conn : PeerConn) (saveErr : Option GoError) :
    (requestNodes ops c g conn saveErr).1.myAddr = g.myAddr ∧
    (requestNodes ops c g conn saveErr).1.peers = g.peers := by
  unfold requestNodes
  cases ReadObject c conn.incoming
      ((maxSharedNodes * c.MaxEncodedNetAddressLength) % 2 ^ 64) with
  | error e => exact ⟨rfl, rfl⟩
  | ok L =>
    cases saveErr <;>
      simp only [emit_myAddr, emit_peers, requestNodesLoop_myAddr, requestNodesLoop_peers,
        and_self]

theorem requestNodes_mem_imp (ops : AddrOps) (c : WireCodec) (g : Gateway)
    (conn : PeerConn) (saveErr : Option GoError) (b : NetAddress)
    (hb : b ∈ (requestNodes ops c g conn saveErr).1.nodes) :
    b ∈ g.nodes ∨ (b ≠ g.myAddr ∧ ops.IsStdValid b = none
      ∧ ops.ParseIP (ops.Host b) ≠ none) := by
  cases hread : ReadObject c conn.incoming
      ((maxSharedNodes * c.MaxEncodedNetAddressLength) % 2 ^ 64) with
  | error e =>
    unfold requestNodes at hb
    simp only [hread] at hb
    exact Or.inl hb
  | ok L =>
    rw [(requestNodes_ok ops c g conn saveErr L hread).2, requestNodesLoop_mem] at hb
    rcases hb with h | ⟨-, h⟩
    · exact Or.inl h
    · exact Or.inr h

/-! ### Traces -/

theorem emit_trace (g : Gateway) (e : Event) : (g.emit e).trace = g.trace ++ [e] := rfl

theorem removeNode_trace (g : Gateway) (a : NetAddress) :
    (removeNode g a).1.trace = g.trace := by
  unfold removeNode
  split_ifs <;> rfl

theorem addNode_trace (ops : AddrOps) (g : Gateway) (a : NetAddress) :
    (addNode ops g a).1.trace = g.trace := by
  unfold addNode
  split_ifs <;> rfl

theorem pingNode_trace (g : Gateway) (a : NetAddress) (de he : Option GoError) :
    (pingNode g a de he).1.trace =
      g.trace ++ (Event.dial a :: (match de with
        | some _ => []
        | none => [Event.handshake a])) := by
  unfold pingNode
  cases de <;> simp [emit_trace]

/-- The events of one purger iteration. -/
theorem purgerIteration_trace (p : Nat) (g : Gateway) (d : PurgerDraw) :
    (purgerIteration p g d).trace =
      g.trace ++ ([Event.rlock, Event.readNodes, Event.readNodes, Event.runlock] ++
        (match (randomNode g d.order d.r).2 with
        | some e =>
          if e = GoError.errNoNodes then []
          else [Event.log (LogEntry.errorRandomNode e)]
        | none =>
          if g.nodes.card ≤ p then []
          else [Event.rlock, Event.readPeers, Event.runlock] ++
            (if (randomNode g d.order d.r).1 ∈ g.peers then []
             else (Event.dial (randomNode g d.order d.r).1 :: (match d.dialErr with
                | some _ => []
                | none => [Event.handshake (randomNode g d.order d.r).1])) ++
              (match (pingNode g (randomNode g d.order d.r).1 d.dialErr d.handshakeErr).2 with
              | some e =>
                [Event.lock, Event.writeNodes,
                  Event.save (g.nodes.erase (randomNode g d.order d.r).1) d.saveErr,
                  Event.unlock,
                  Event.log (LogEntry.infoRemovingNode (randomNode g d.order d.r).1 e)]
              | none => [])))) := by
  unfold purgerIteration
  simp only [randomNode_emit, emit_nodes, emit_peers]
  generalize randomNode g d.order d.r = picked
  obtain ⟨node, err⟩ := picked
  cases err with
  | some e =>
    by_cases he : e = GoError.errNoNodes
    · simp [he, emit_trace]
    · simp [he, emit_trace]
  | none =>
    by_cases h1 : g.nodes.card ≤ p
    · simp [h1, emit_trace]
    · by_cases h2 : node ∈ g.peers
      · simp [h1, h2, emit_trace]
      · have hp := pingNode_err
          (((((((g.emit Event.rlock).emit Event.readNodes).emit Event.readNodes).emit
            Event.runlock).emit Event.rlock).emit Event.readPeers).emit Event.runlock)
          g node d.dialErr d.handshakeErr
        cases hq : (pingNode g node d.dialErr d.handshakeErr).2 with
        | none =>
          rw [hq] at hp
          simp [h1, h2, hp, pingNode_trace, emit_trace]
        | some e =>
          rw [hq] at hp
          simp [h1, h2, hp, pingNode_trace, pingNode_nodes, emit_trace, emit_nodes,
            removeNode_trace, removeNode_nodes]

theorem newEvents_eq {g g1 : Gateway} {evs : List Event}
    (h : g1.trace = g.trace ++ evs) : newEvents g g1 = evs := by
  unfold newEvents
  rw [h, List.drop_left]

theorem lockRun_append (s : LockState) (evs1 evs2 : List Event) :
    lockRun s (evs1 ++ evs2) = (lockRun s evs1).bind (fun s1 => lockRun s1 evs2) := by
  induction evs1 generalizing s with
  | nil => rfl
  | cons e rest ih =>
    simp only [List.cons_append, lockRun]
    cases lockStep s e with
    | none => rfl
    | some s1 => exact ih s1

theorem lockRun_writes (evs : List Event)
    (h : ∀ e ∈ evs, e = Event.writeNodes ∨ e.isLog = true) :
    lockRun LockState.writeHeld evs = some LockState.writeHeld := by
  induction evs with
  | nil => rfl
  | cons e rest ih =>
    have hrest := ih (fun x hx => h x (List.mem_cons_of_mem _ hx))
    rcases h e (List.mem_cons_self _ _) with rfl | hl
    · simpa [lockRun, lockStep] using hrest
    · cases e <;> simp [Event.isLog] at hl
      simpa [lockRun, lockStep] using hrest

theorem requestNodesLoop_trace (ops : AddrOps) (rpcAddr : NetAddress)
    (L : List NetAddress) (g : Gateway) :
    ∃ evs, (requestNodesLoop ops rpcAddr g L).trace = g.trace ++ evs ∧
      ∀ e ∈ evs, e = Event.writeNodes ∨ e.isLog = true := by
  induction L generalizing g with
  | nil => exact ⟨[], by simp [requestNodesLoop], by simp⟩
  | cons a rest ih =>
    rw [requestNodesLoop]
    split_ifs
    · obtain ⟨evs, htr, hev⟩ := ih ((addNode ops (g.emit Event.writeNodes) a).1.emit
        (Event.log (LogEntry.warnInvalidAddr rpcAddr a)))
      refine ⟨Event.writeNodes :: Event.log (LogEntry.warnInvalidAddr rpcAddr a) :: evs, ?_, ?_⟩
      · rw [htr, emit_trace, addNode_trace, emit_trace]
        simp
      · intro e he
        simp only [List.mem_cons] at he
        rcases he with rfl | rfl | he
        · exact Or.inl rfl
        · exact Or.inr rfl
        · exact hev e he
    · obtain ⟨evs, htr, hev⟩ := ih (addNode ops (g.emit Event.writeNodes) a).1
      refine ⟨Event.writeNodes :: evs, ?_, ?_⟩
      · rw [htr, addNode_trace, emit_trace]
        simp
      · intro e he
        simp only [List.mem_cons] at he
        rcases he with rfl | he
        · exact Or.inl rfl
        · exact hev e he

/-- The events of requestNodes when the read fails. -/
theorem requestNodes_trace_error (ops : AddrOps) (c : WireCodec) (g : Gateway)
    (conn : PeerConn) (saveErr : Option GoError) (e : GoError)
    (hread : ReadObject c conn.incoming
      ((maxSharedNodes * c.MaxEncodedNetAddressLength) % 2 ^ 64) = Except.error e) :
    (requestNodes ops c g conn saveErr).2 = some e ∧
    (requestNodes ops c g conn saveErr).1.trace =
      g.trace ++ [Event.setDeadline, Event.readObject] := by
  unfold requestNodes
  simp only [hread]
  simp [emit_trace]

/-- The events of requestNodes when the read decodes a list. -/
theorem requestNodes_trace_ok (ops : AddrOps) (c : WireCodec) (g : Gateway)
    (conn : PeerConn) (saveErr : Option GoError) (L : List NetAddress)
    (hread : ReadObject c conn.incoming
      ((maxSharedNodes * c.MaxEncodedNetAddressLength) % 2 ^ 64) = Except.ok L) :
    ∃ evs, (∀ e ∈ evs, e = Event.writeNodes ∨ e.isLog = true) ∧
      (requestNodes ops c g conn saveErr).1.trace =
        g.trace ++ ([Event.setDeadline, Event.readObject, Event.lock] ++ evs ++
          (Event.save (requestNodes ops c g conn saveErr).1.nodes saveErr ::
            ((match saveErr with
              | some e => [Event.log (LogEntry.warnSaveFailed e)]
              | none => []) ++ [Event.unlock]))) := by
  obtain ⟨evs, htr, hev⟩ := requestNodesLoop_trace ops conn.RPCAddr L
    (((g.emit Event.setDeadline).emit Event.readObject).emit Event.lock)
  refine ⟨evs, hev, ?_⟩
  unfold requestNodes
  simp only [hread]
  cases saveErr <;> simp [emit_trace, emit_nodes, htr]

theorem requestNodes_trace_extends (ops : AddrOps) (c : WireCodec) (g : Gateway)
    (conn : PeerConn) (saveErr : Option GoError) :
    ∃ evs, (requestNodes ops c g conn saveErr).1.trace = g.trace ++ evs := by
  cases hread : ReadObject c conn.incoming
      ((maxSharedNodes * c.MaxEncodedNetAddressLength) % 2 ^ 64) with
  | error e => exact ⟨_, (requestNodes_trace_error ops c g conn saveErr e hread).2⟩
  | ok L =>
    obtain ⟨evs, -, htr⟩ := requestNodes_trace_ok ops c g conn saveErr L hread
    exact ⟨_, htr⟩

/-- The events of a manager iteration that picked a peer while the node list
is below the healthy length: the RPC is issued. -/
theorem managerIteration_unhealthy (h : Nat) (ops : AddrOps) (c : WireCodec)
    (g : Gateway) (d : ManagerDraw) (hstart : d.stopAtStart = false)
    (hpeer : d.peerErr = none) (hlow : g.nodes.card < h) :
    ∃ evs, newEvents g (managerIteration h ops c g d).1 =
      [Event.sleep Delay.nodeListDelay, Event.rlock, Event.readNodes, Event.readPeers,
        Event.runlock, Event.rpcShareNodes d.peer] ++ evs := by
  unfold managerIteration
  simp only [hstart, hpeer, emit_nodes, hlow, if_true, Bool.false_eq_true, if_false]
  cases hrpc : d.rpcErr with
  | some e =>
    refine ⟨[Event.log (LogEntry.warnRPCFailed d.peer e)], ?_⟩
    apply newEvents_eq
    simp [emit_trace]
  | none =>
    obtain ⟨evs, htr⟩ := requestNodes_trace_extends ops c
      ((((((g.emit (Event.sleep Delay.nodeListDelay)).emit Event.rlock).emit
        Event.readNodes).emit Event.readPeers).emit Event.runlock).emit
        (Event.rpcShareNodes d.peer)) d.conn d.saveErr
    simp only
    cases hres : (requestNodes ops c
      ((((((g.emit (Event.sleep Delay.nodeListDelay)).emit Event.rlock).emit
        Event.readNodes).emit Event.readPeers).emit Event.runlock).emit
        (Event.rpcShareNodes d.peer)) d.conn d.saveErr).2 with
    | some e =>
      refine ⟨evs ++ [Event.log (LogEntry.warnRPCFailed d.peer e)], ?_⟩
      apply newEvents_eq
      simp [emit_trace, htr]
    | none =>
      refine ⟨evs, ?_⟩
      apply newEvents_eq
      simp [emit_trace, htr]

/-- The events of a manager iteration that did not issue the RPC. -/
theorem managerIteration_quiet (h : Nat) (ops : AddrOps) (c : WireCodec)
    (g : Gateway) (d : ManagerDraw) (hstart : d.stopAtStart = false)
    (hq : d.peerErr ≠ none ∨ h ≤ g.nodes.card) :
    (managerIteration h ops c g d).1.nodes = g.nodes ∧
    newEvents g (managerIteration h ops c g d).1 =
      [Event.sleep Delay.nodeListDelay, Event.rlock, Event.readNodes, Event.readPeers,
        Event.runlock] ++
      (match d.peerErr with
        | some e =>
          if e = GoError.errNoPeers then [] else [Event.log (LogEntry.errorRandomPeer e)]
        | none =>
          if d.stopWhileHealthy then [] else [Event.sleep Delay.wellConnectedDelay]) ∧
    (managerIteration h ops c g d).2 = (d.peerErr = none && d.stopWhileHealthy) := by
  unfold managerIteration
  simp only [hstart, emit_nodes, Bool.false_eq_true, if_false]
  cases hpeer : d.peerErr with
  | some e =>
    by_cases he : e = GoError.errNoPeers
    · refine ⟨by simp [he, emit_nodes], ?_, by simp [he]⟩
      apply newEvents_eq
      simp [he, emit_trace]
    · refine ⟨by simp [he, emit_nodes], ?_, by simp [he]⟩
      apply newEvents_eq
      simp [he, emit_trace]
  | none =>
    have hge : ¬ g.nodes.card < h := by
      rcases hq with hq | hq
      · exact absurd hpeer hq
      · omega
    cases hs : d.stopWhileHealthy
    · refine ⟨by simp [hge, emit_nodes], ?_, by simp [hge]⟩
      apply newEvents_eq
      simp [hge, emit_trace]
    · refine ⟨by simp [hge, emit_nodes], ?_, by simp [hge]⟩
      apply newEvents_eq
      simp [hge, emit_trace]

/-! ### Transactions -/

theorem noRepeatsLoop_cases (l : List Nat) (seen : Finset Nat) :
    noRepeatsLoop l seen = none ∨ noRepeatsLoop l seen = some TypesError.ErrDoubleSpend := by
  induction l generalizing seen with
  | nil => exact Or.inl rfl
  | cons x rest ih =>
    rw [noRepeatsLoop]
    split_ifs
    · exact Or.inr rfl
    · exact ih _

theorem noRepeatsLoop_none_iff (l : List Nat) (seen : Finset Nat) :
    noRepeatsLoop l seen = none ↔ l.Nodup ∧ ∀ x ∈ l, x ∉ seen := by
  induction l generalizing seen with
  | nil => simp [noRepeatsLoop]
  | cons x rest ih =>
    rw [noRepeatsLoop]
    split_ifs with hx
    · constructor
      · intro h
        simp at h
      · rintro ⟨-, h⟩
        exact absurd hx (h x (List.mem_cons_self _ _))
    · rw [ih, List.nodup_cons]
      constructor
      · rintro ⟨hnd, hseen⟩
        refine ⟨⟨fun hmem => ?_, hnd⟩, fun y hy => ?_⟩
        · exact hseen x hmem (Finset.mem_insert_self _ _)
        · rcases List.mem_cons.mp hy with rfl | hy
          · exact hx
          · exact fun h => hseen y hy (Finset.mem_insert_of_mem h)
      · rintro ⟨⟨hnotin, hnd⟩, hseen⟩
        refine ⟨hnd, fun y hy h => ?_⟩
        rcases Finset.mem_insert.mp h with rfl | h
        · exact hnotin hy
        · exact hseen y (List.mem_cons_of_mem _ hy) h

theorem not_nodup_map_iff {α : Type} (f : α → Nat) (l : List α) :
    ¬ (l.map f).Nodup ↔
      ∃ i j : Nat, i ≠ j ∧ ∃ a b, l[i]? = some a ∧ l[j]? = some b ∧ f a = f b := by
  rw [List.nodup_iff_getElem?_ne_getElem?]
  push_neg
  constructor
  · rintro ⟨i, j, hij, hj, heq⟩
    rw [List.length_map] at hj
    have hi : i < l.length := lt_trans hij hj
    rw [List.getElem?_map, List.getElem?_map, List.getElem?_eq_getElem hi,
      List.getElem?_eq_getElem hj] at heq
    exact ⟨i, j, Nat.ne_of_lt hij, _, _, List.getElem?_eq_getElem hi,
      List.getElem?_eq_getElem hj, Option.some.inj heq⟩
  · rintro ⟨i, j, hij, a, b, ha, hb, hab⟩
    have hi : i < l.length := (List.getElem?_eq_some.mp ha).1
    have hj : j < l.length := (List.getElem?_eq_some.mp hb).1
    rcases Nat.lt_or_gt_of_ne hij with hlt | hgt
    · refine ⟨i, j, hlt, by rw [List.length_map]; exact hj, ?_⟩
      rw [List.getElem?_map, List.getElem?_map, ha, hb]
      exact congrArg some hab
    · refine ⟨j, i, hgt, by rw [List.length_map]; exact hi, ?_⟩
      rw [List.getElem?_map, List.getElem?_map, ha, hb]
      exact congrArg some hab.symm

theorem noRepeats_none_iff (t : Transaction) :
    noRepeats t = none ↔
      (t.CoinInputs.map (fun sci => sci.ParentID)).Nodup ∧
      (t.BlockStakeInputs.map (fun bsi => bsi.ParentID)).Nodup := by
  unfold noRepeats
  cases h : noRepeatsLoop (t.CoinInputs.map (fun sci => sci.ParentID)) ∅ with
  | some e =>
    simp only [reduceCtorEq, false_iff, not_and]
    intro hnd
    have := (noRepeatsLoop_none_iff _ ∅).mpr ⟨hnd, fun _ _ => Finset.not_mem_empty _⟩
    rw [h] at this
    simp at this
  | none =>
    simp only
    rw [noRepeatsLoop_none_iff] at h
    rw [noRepeatsLoop_none_iff]
    constructor
    · rintro ⟨hnd, -⟩
      exact ⟨h.1, hnd⟩
    · rintro ⟨-, hnd⟩
      exact ⟨hnd, fun _ _ => Finset.not_mem_empty _⟩

theorem noRepeats_cases (t : Transaction) :
    noRepeats t = none ∨ noRepeats t = some TypesError.ErrDoubleSpend := by
  unfold noRepeats
  rcases noRepeatsLoop_cases (t.CoinInputs.map (fun sci => sci.ParentID)) ∅ with h | h
  · rw [h]
    exact noRepeatsLoop_cases _ _
  · rw [h]
    exact Or.inr rfl

/-! ### The block creator -/

theorem revertBlock_log (GenesisID : BlockID) (b : BlockCreator) (block : Block) :
    (revertBlock GenesisID b block).log = b.log := by
  unfold revertBlock
  split_ifs with h1 h2
  · rfl
  · exact absurd (Or.inl (Nat.pos_of_ne_zero h2)) h1
  · rfl

theorem applyBlock_log (GenesisID : BlockID) (b : BlockCreator) (block : Block) :
    (applyBlock GenesisID b block).log = b.log := by
  unfold applyBlock
  split_ifs with h1 h2
  · rfl
  · exact absurd (Or.inl (Nat.pos_of_ne_zero h2)) h1
  · rfl

theorem foldl_revertBlock_log (GenesisID : BlockID) (blocks : List Block)
    (b : BlockCreator) :
    (blocks.foldl (revertBlock GenesisID) b).log = b.log := by
  induction blocks generalizing b with
  | nil => rfl
  | cons block rest ih =>
    rw [List.foldl_cons, ih, revertBlock_log]

theorem foldl_applyBlock_log (GenesisID : BlockID) (blocks : List Block)
    (b : BlockCreator) :
    (blocks.foldl (applyBlock GenesisID) b).log = b.log := by
  induction blocks generalizing b with
  | nil => rfl
  | cons block rest ih =>
    rw [List.foldl_cons, ih, applyBlock_log]

/-! ## The claims -/

/-- C1: addNode succeeds exactly when the address differs from the own
address, is not yet in the node set, passes `IsStdValid` and has a host that
`net.ParseIP` accepts; on success the state is the old one with the address
inserted in the node set, and on every failure the state is the old one. -/
theorem addNode_eq_reference (ops : AddrOps) (g : Gateway) (a : NetAddress) :
    ((addNode ops g a).2 = none ↔
      (a ≠ g.myAddr ∧ a ∉ g.nodes ∧ ops.IsStdValid a = none
        ∧ ops.ParseIP (ops.Host a) ≠ none)) ∧
    (addNode ops g a).1 =
      (if (addNode ops g a).2 = none then { g with nodes := insert a g.nodes }
       else g) := by
  unfold addNode
  split_ifs with h1 h2 h3 h4 <;> simp_all

/-- C2: when the read of requestNodes decodes the list `L`, the call returns
nil and the node set afterwards holds exactly the old members and those
entries of `L` that differ from the own address, pass `IsStdValid` and have
an IP-literal host, whatever else `L` contains; from an empty node set and
three distinct valid addresses, none the own address, the node set afterwards
is exactly those three. -/
theorem requestNodes_merges_batch (ops : AddrOps) (c : WireCodec) (g : Gateway)
    (conn : PeerConn) (saveErr : Option GoError) (L : List NetAddress)
    (hread : ReadObject c conn.incoming
      ((maxSharedNodes * c.MaxEncodedNetAddressLength) % 2 ^ 64) = Except.ok L) :
    (requestNodes ops c g conn saveErr).2 = none ∧
    (∀ b, b ∈ (requestNodes ops c g conn saveErr).1.nodes ↔
      b ∈ g.nodes ∨ (b ∈ L ∧ b ≠ g.myAddr ∧ ops.IsStdValid b = none
        ∧ ops.ParseIP (ops.Host b) ≠ none)) ∧
    (g.nodes = ∅ → L.length = 3 → L.Nodup →
      (∀ b ∈ L, b ≠ g.myAddr ∧ ops.IsStdValid b = none
        ∧ ops.ParseIP (ops.Host b) ≠ none) →
      (requestNodes ops c g conn saveErr).1.nodes = L.toFinset ∧
      (requestNodes ops c g conn saveErr).1.nodes.card = 3) := by
  obtain ⟨hret, hnodes⟩ := requestNodes_ok ops c g conn saveErr L hread
  have hmem : ∀ b, b ∈ (requestNodes ops c g conn saveErr).1.nodes ↔
      b ∈ g.nodes ∨ (b ∈ L ∧ b ≠ g.myAddr ∧ ops.IsStdValid b = none
        ∧ ops.ParseIP (ops.Host b) ≠ none) := by
    intro b
    rw [hnodes, requestNodesLoop_mem]
    rfl
  refine ⟨hret, hmem, ?_⟩
  intro hempty hlen hnd hvalid
  have heq : (requestNodes ops c g conn saveErr).1.nodes = L.toFinset := by
    ext b
    rw [hmem, hempty, List.mem_toFinset]
    constructor
    · rintro (h | ⟨h, -⟩)
      · simp at h
      · exact h
    · intro h
      exact Or.inr ⟨h, hvalid b h⟩
  refine ⟨heq, ?_⟩
  rw [heq, List.toFinset_card_of_nodup hnd, hlen]

/-- Witness of C2: three valid addresses received on an empty node set. -/
theorem requestNodes_merges_batch_witness :
    (requestNodes sampleOps sampleCodec emptyGateway threeNodeConn none).2 = none ∧
    (requestNodes sampleOps sampleCodec emptyGateway threeNodeConn none).1.nodes
      = ["1.1.1.1:1", "2.2.2.2:2", "3.3.3.3:3"].toFinset ∧
    (requestNodes sampleOps sampleCodec emptyGateway threeNodeConn none).1.nodes.card = 3 :=
  ⟨(requestNodes_merges_batch sampleOps sampleCodec emptyGateway threeNodeConn none
      ["1.1.1.1:1", "2.2.2.2:2", "3.3.3.3:3"] rfl).1,
   (requestNodes_merges_batch sampleOps sampleCodec emptyGateway threeNodeConn none
      ["1.1.1.1:1", "2.2.2.2:2", "3.3.3.3:3"] rfl).2.2
      (by decide) (by decide) (by decide) (by decide)⟩

/-- C3: the purger never takes the node set below `pruneNodeListLen`.  An
iteration that starts with at most `pruneNodeListLen` nodes leaves the node
set as it is; every iteration keeps a subset of the node set and removes at
most one node; a run from a set of at least `pruneNodeListLen` nodes never has
fewer; and from `pruneNodeListLen + 1` nodes, an iteration whose picked node is
no peer and whose dial or handshake fails leaves `pruneNodeListLen` nodes,
which every later run keeps unchanged. -/
theorem purger_keeps_floor (p : Nat) :
    (∀ g d, g.nodes.card ≤ p → (purgerIteration p g d).nodes = g.nodes) ∧
    (∀ g d, (purgerIteration p g d).nodes ⊆ g.nodes ∧
      g.nodes.card ≤ (purgerIteration p g d).nodes.card + 1) ∧
    (∀ g ds, p ≤ g.nodes.card → p ≤ (purgerRun p g ds).nodes.card) ∧
    (∀ g d ds, g.nodes.card = p + 1 → Enumerates g.nodes d.order →
      0 ≤ d.r → d.r < g.nodes.card →
      (randomNode g d.order d.r).1 ∉ g.peers →
      (d.dialErr ≠ none ∨ d.handshakeErr ≠ none) →
      (purgerIteration p g d).nodes.card = p ∧
      (purgerRun p (purgerIteration p g d) ds).nodes = (purgerIteration p g d).nodes) := by
  refine ⟨purgerIteration_at_floor p,
    fun g d => ⟨purgerIteration_subset p g d, purgerIteration_card p g d⟩,
    fun g ds => purgerRun_floor p ds g, ?_⟩
  intro g d ds hcard henum h0 hr hpeer hfail
  have hping := (pingNode_fails_iff g (randomNode g d.order d.r).1 d.dialErr
    d.handshakeErr).mpr hfail
  obtain ⟨a, hget, hpick⟩ := randomNode_index g d.order d.r henum h0 hr
  have hmem : a ∈ g.nodes := (henum.2 a).mp (List.get?_mem hget)
  have hnodes : (purgerIteration p g d).nodes = g.nodes.erase a := by
    rw [purgerIteration_nodes, if_pos ⟨by rw [hpick], by omega, hpeer, hping⟩, hpick]
  have hc : (purgerIteration p g d).nodes.card = p := by
    rw [hnodes, Finset.card_erase_of_mem hmem, hcard]
    rfl
  exact ⟨hc, purgerRun_at_floor p ds _ (le_of_eq hc)⟩

/-- Witness of C3: three nodes, floor two, the picked node is no peer and its
handshake fails. -/
theorem purger_keeps_floor_witness :
    ((purgerIteration 2 threeNodeGateway failingDraw).nodes.card = 2 ∧
      (purgerRun 2 (purgerIteration 2 threeNodeGateway failingDraw)
          [failingDraw, failingDraw]).nodes
        = (purgerIteration 2 threeNodeGateway failingDraw).nodes) ∧
    (purgerRun 2 threeNodeGateway [failingDraw, failingDraw, failingDraw]).nodes
      = {"2.2.2.2:2", "3.3.3.3:3"} :=
  ⟨(purger_keeps_floor 2).2.2.2 threeNodeGateway failingDraw [failingDraw, failingDraw]
      (by decide) (by decide) (by decide) (by decide) (by decide) (Or.inr (by decide)),
   by decide⟩

/-- C7: on an empty node set randomNode returns `errNoPeers`, which is not
the error `errNoNodes`. -/
theorem randomNode_empty_returns_errNoPeers (myAddr : NetAddress)
    (peers : Finset NetAddress) (trace : List Event) (order : List NetAddress)
    (r : Int) :
    randomNode { myAddr := myAddr, nodes := ∅, peers := peers, trace := trace } order r
      = ("", some GoError.errNoPeers) ∧
    (randomNode { myAddr := myAddr, nodes := ∅, peers := peers, trace := trace } order r).2
      ≠ some GoError.errNoNodes := by
  constructor
  · rfl
  · simp [randomNode]

/-- C8: on a non-empty node set visited in the order `n_0 .. n_(k-1)`, a draw
`r` with `0 ≤ r < k` makes randomNode return `n_r` and no error; the result is
a member of the node set; two draws with the same result are equal; and every
member is the result of exactly one draw. -/
theorem randomNode_selects_by_index (g : Gateway) (order : List NetAddress)
    (r : Int) (henum : Enumerates g.nodes order) (h0 : 0 ≤ r)
    (hr : r < g.nodes.card) :
    order.get? r.toNat = some (randomNode g order r).1 ∧
    (randomNode g order r).2 = none ∧
    (randomNode g order r).1 ∈ g.nodes ∧
    (∀ s : Int, 0 ≤ s → s < g.nodes.card →
      randomNode g order s = randomNode g order r → s = r) ∧
    (∀ a ∈ g.nodes, ∃ s : Int, (0 ≤ s ∧ s < g.nodes.card ∧
      randomNode g order s = (a, none)) ∧
      ∀ t : Int, 0 ≤ t → t < g.nodes.card → randomNode g order t = (a, none) → t = s) := by
  have hlen := henum.length_eq
  have inj : ∀ s t : Int, 0 ≤ s → s < g.nodes.card → 0 ≤ t → t < g.nodes.card →
      randomNode g order s = randomNode g order t → s = t := by
    intro s t hs0 hs ht0 ht heq
    obtain ⟨a, hga, hpa⟩ := randomNode_index g order s henum hs0 hs
    obtain ⟨b, hgb, hpb⟩ := randomNode_index g order t henum ht0 ht
    rw [hpa, hpb] at heq
    have hab : a = b := (Prod.mk.inj heq).1
    rw [← hab] at hgb
    have hs' : s.toNat < order.length := by omega
    have ht' : t.toNat < order.length := by omega
    rw [List.get?_eq_get hs'] at hga
    rw [List.get?_eq_get ht'] at hgb
    have hget : order.get ⟨s.toNat, hs'⟩ = order.get ⟨t.toNat, ht'⟩ := by
      rw [Option.some.inj hga, Option.some.inj hgb]
    have := (List.Nodup.get_inj_iff henum.1).mp hget
    have hst : s.toNat = t.toNat := congrArg Fin.val this
    omega
  obtain ⟨a, hget, hpick⟩ := randomNode_index g order r henum h0 hr
  refine ⟨by rw [hpick]; exact hget, by rw [hpick], ?_, ?_, ?_⟩
  · rw [hpick]
    exact (henum.2 a).mp (List.get?_mem hget)
  · intro s hs0 hs heq
    exact inj s r hs0 hs h0 hr heq
  · intro b hb
    have hbo : b ∈ order := (henum.2 b).mpr hb
    obtain ⟨i, hi⟩ := List.get_of_mem hbo
    have hget' : order.get? i.1 = some b := by
      rw [List.get?_eq_get i.2]
      exact congrArg some hi
    have hi0 : (0 : Int) ≤ (i.1 : Int) := by omega
    have hilt : (i.1 : Int) < g.nodes.card := by
      have := i.2
      omega
    have hpick' : randomNode g order (i.1 : Int) = (b, none) := by
      obtain ⟨c, hc, hpc⟩ := randomNode_index g order i.1 henum hi0 hilt
      rw [Int.toNat_ofNat, hget'] at hc
      rw [hpc, ← Option.some.inj hc]
    refine ⟨i.1, ⟨hi0, hilt, hpick'⟩, ?_⟩
    intro t ht0 ht heq
    exact inj t i.1 ht0 ht hi0 hilt (heq.trans hpick'.symm)

/-- Witness of C8: three nodes, the draw 1 returns the second node visited. -/
theorem randomNode_selects_by_index_witness :
    (["1.1.1.1:1", "2.2.2.2:2", "3.3.3.3:3"] : List NetAddress).get? (1 : Int).toNat
      = some (randomNode threeNodeGateway ["1.1.1.1:1", "2.2.2.2:2", "3.3.3.3:3"] 1).1 ∧
    (randomNode threeNodeGateway ["1.1.1.1:1", "2.2.2.2:2", "3.3.3.3:3"] 1).2 = none :=
  ⟨(randomNode_selects_by_index threeNodeGateway ["1.1.1.1:1", "2.2.2.2:2", "3.3.3.3:3"] 1
      (by decide) (by decide) (by decide)).1,
   (randomNode_selects_by_index threeNodeGateway ["1.1.1.1:1", "2.2.2.2:2", "3.3.3.3:3"] 1
      (by decide) (by decide) (by decide)).2.1⟩

/-- C9: removeNode of an address that is not in the node set fails with the
not-found error and leaves the state as it is; removeNode of a member returns
nil and the new node set is the old one without that address: the other
members are kept, the size drops by one, the address is no member, and no
later randomNode returns it. -/
theorem removeNode_eq_reference (g : Gateway) (a : NetAddress) :
    (a ∉ g.nodes →
      (removeNode g a).2 = some (GoError.errorsNew "no record of that node") ∧
      (removeNode g a).1 = g) ∧
    (a ∈ g.nodes →
      (removeNode g a).2 = none ∧
      (removeNode g a).1 = { g with nodes := g.nodes.erase a } ∧
      (∀ b, b ∈ (removeNode g a).1.nodes ↔ b ∈ g.nodes ∧ b ≠ a) ∧
      (removeNode g a).1.nodes.card + 1 = g.nodes.card ∧
      a ∉ (removeNode g a).1.nodes ∧
      ∀ order r, Enumerates (removeNode g a).1.nodes order →
        randomNode (removeNode g a).1 order r ≠ (a, none)) := by
  constructor
  · intro h
    simp [removeNode, h]
  · intro h
    have hst : (removeNode g a).1 = { g with nodes := g.nodes.erase a } := by
      simp [removeNode, h]
    have hnot : a ∉ (removeNode g a).1.nodes := by
      rw [hst]
      exact Finset.not_mem_erase a g.nodes
    refine ⟨by simp [removeNode, h], hst, ?_, ?_, hnot, ?_⟩
    · intro b
      rw [hst]
      simp only [Finset.mem_erase]
      exact And.comm
    · rw [hst]
      simp only
      rw [Finset.card_erase_of_mem h]
      have := Finset.card_pos.mpr ⟨a, h⟩
      omega
    · intro order r henum hpick
      apply hnot
      unfold randomNode at hpick
      split_ifs at hpick
      · simp at hpick
      · exact (henum.2 a).mp (randomNodeScan_mem order r a hpick)

/-- Witness of C9: removing a member of a three-node set. -/
theorem removeNode_eq_reference_witness :
    (removeNode threeNodeGateway "2.2.2.2:2").2 = none ∧
    (removeNode threeNodeGateway "2.2.2.2:2").1.nodes.card + 1
      = threeNodeGateway.nodes.card :=
  ⟨((removeNode_eq_reference threeNodeGateway "2.2.2.2:2").2 (by decide)).1,
   ((removeNode_eq_reference threeNodeGateway "2.2.2.2:2").2 (by decide)).2.2.2.1⟩

/-- C10: on a node set that does not hold the own address (the invariant of
the node set), addNode of an address that is already a member returns
`errNodeExists` and leaves the state, and so the size of the node set,
unchanged. -/
theorem addNode_existing_member (ops : AddrOps) (g : Gateway) (a : NetAddress)
    (hown : g.myAddr ∉ g.nodes) (h : a ∈ g.nodes) :
    (addNode ops g a).2 = some GoError.errNodeExists ∧
    (addNode ops g a).1 = g ∧
    (addNode ops g a).1.nodes.card = g.nodes.card := by
  have hm : a ≠ g.myAddr := by
    intro heq
    rw [heq] at h
    exact hown h
  unfold addNode
  simp [hm, h]

/-- Witness of C10: a member of a three-node set is added again. -/
theorem addNode_existing_member_witness :
    ((addNode sampleOps threeNodeGateway "2.2.2.2:2").2 = some GoError.errNodeExists ∧
      (addNode sampleOps threeNodeGateway "2.2.2.2:2").1 = threeNodeGateway ∧
      (addNode sampleOps threeNodeGateway "2.2.2.2:2").1.nodes.card
        = threeNodeGateway.nodes.card) ∧
    (addNode sampleOps threeNodeGateway "2.2.2.2:2").1.nodes.card = 3 :=
  ⟨addNode_existing_member sampleOps threeNodeGateway "2.2.2.2:2" (by decide) (by decide),
   by decide⟩

/-- C4: every address in the list that shareNodes writes obeys the
locality-sharing rule: a loopback address is written only to a loopback
requester, and a local address only to a requester that is loopback or
local. -/
theorem shareNodes_locality (ops : AddrOps) (g : Gateway) (conn : PeerConn)
    (order : List NetAddress) (perm : List Nat)
    (hperm : perm.Perm (List.range (shareCandidates ops conn.RemoteAddr order).length)) :
    ∃ res, shareNodes ops g conn order perm = some res ∧
      Event.writeObject res.2.1 ∈ res.1.trace ∧
      ∀ a ∈ res.2.1,
        (ops.IsLoopback a = true → ops.IsLoopback conn.RemoteAddr = true) ∧
        (ops.IsLocal a = true →
          ops.IsLoopback conn.RemoteAddr = true ∨ ops.IsLocal conn.RemoteAddr = true) := by
  refine ⟨_, shareNodes_written ops g conn order perm hperm, ?_, ?_⟩
  · simp [Gateway.emit]
  · intro a ha
    have hlt : ∀ i ∈ perm, i < (shareCandidates ops conn.RemoteAddr order).length :=
      fun i hi => List.mem_range.mp (hperm.mem_iff.mp hi)
    have hc := written_mem_candidates _ perm maxSharedNodes hlt a ha
    obtain ⟨-, hl, hp⟩ := (shareCandidates_mem ops conn.RemoteAddr order a).mp hc
    exact ⟨hl, fun h => Or.inr (hp h)⟩

/-- Witness of C4: a public requester asks a gateway that knows a loopback, a
private and a public node. -/
theorem shareNodes_locality_witness :
    ∃ res, shareNodes sampleOps mixedGateway threeNodeConn
        ["127.0.0.1:1", "10.0.0.1:1", "3.3.3.3:3"] [0] = some res ∧
      Event.writeObject res.2.1 ∈ res.1.trace ∧
      ∀ a ∈ res.2.1,
        (sampleOps.IsLoopback a = true →
          sampleOps.IsLoopback threeNodeConn.RemoteAddr = true) ∧
        (sampleOps.IsLocal a = true →
          sampleOps.IsLoopback threeNodeConn.RemoteAddr = true
            ∨ sampleOps.IsLocal threeNodeConn.RemoteAddr = true) :=
  shareNodes_locality sampleOps mixedGateway threeNodeConn
    ["127.0.0.1:1", "10.0.0.1:1", "3.3.3.3:3"] [0] (by decide)

/-- C5: the list that shareNodes writes is a sample without replacement of
the candidates: it has no duplicates, each entry is a member of the node set
that passes the locality filter, its length is the minimum of
`maxSharedNodes` (10) and the number of candidates, so at most 10, and when
there are at most 10 candidates it holds every one of them. -/
theorem shareNodes_bounded_sample (ops : AddrOps) (g : Gateway) (conn : PeerConn)
    (order : List NetAddress) (perm : List Nat) (henum : Enumerates g.nodes order)
    (hperm : perm.Perm (List.range (shareCandidates ops conn.RemoteAddr order).length)) :
    ∃ res, shareNodes ops g conn order perm = some res ∧
      res.2.1.Nodup ∧
      (∀ a ∈ res.2.1, a ∈ g.nodes ∧
        (ops.IsLoopback a = true → ops.IsLoopback conn.RemoteAddr = true) ∧
        (ops.IsLocal a = true → ops.IsLocal conn.RemoteAddr = true)) ∧
      res.2.1.length = min 10 (g.nodes.filter (fun a =>
        (ops.IsLoopback a = true → ops.IsLoopback conn.RemoteAddr = true)
          ∧ (ops.IsLocal a = true → ops.IsLocal conn.RemoteAddr = true))).card ∧
      res.2.1.length ≤ 10 ∧
      ((g.nodes.filter (fun a =>
        (ops.IsLoopback a = true → ops.IsLoopback conn.RemoteAddr = true)
          ∧ (ops.IsLocal a = true → ops.IsLocal conn.RemoteAddr = true))).card ≤ 10 →
        ∀ a ∈ g.nodes,
          (ops.IsLoopback a = true → ops.IsLoopback conn.RemoteAddr = true) →
          (ops.IsLocal a = true → ops.IsLocal conn.RemoteAddr = true) →
          a ∈ res.2.1) := by
  have hlt : ∀ i ∈ perm, i < (shareCandidates ops conn.RemoteAddr order).length :=
    fun i hi => List.mem_range.mp (hperm.mem_iff.mp hi)
  have hcard := shareCandidates_card ops conn.RemoteAddr g.nodes order henum
  have hlen : ((perm.take maxSharedNodes).map
      (fun i => ((shareCandidates ops conn.RemoteAddr order).get? i).getD "")).length
      = min 10 (shareCandidates ops conn.RemoteAddr order).length := by
    rw [List.length_map, List.length_take, hperm.length_eq, List.length_range]
    rfl
  refine ⟨_, shareNodes_written ops g conn order perm hperm, ?_, ?_, ?_, ?_, ?_⟩
  · exact written_nodup _ perm maxSharedNodes
      (henum.1.sublist (shareCandidates_sublist ops conn.RemoteAddr order))
      (hperm.nodup_iff.mpr (List.nodup_range _)) hlt
  · intro a ha
    have hc := written_mem_candidates _ perm maxSharedNodes hlt a ha
    obtain ⟨ho, hl, hp⟩ := (shareCandidates_mem ops conn.RemoteAddr order a).mp hc
    exact ⟨(henum.2 a).mp ho, hl, hp⟩
  · rw [← hcard]
    exact hlen
  · simp only [hlen]
    exact Nat.min_le_left _ _
  · intro hsmall a ha hl hp
    rw [← hcard] at hsmall
    exact written_complete _ perm maxSharedNodes hperm hsmall a
      ((shareCandidates_mem ops conn.RemoteAddr order a).mpr ⟨(henum.2 a).mpr ha, hl, hp⟩)

/-- Witness of C5: a loopback requester asks a gateway that knows three
nodes; all three are written, in the drawn order. -/
theorem shareNodes_bounded_sample_witness :
    ∃ res, shareNodes sampleOps mixedGateway
        { threeNodeConn with RemoteAddr := "127.0.0.1:7" }
        ["127.0.0.1:1", "10.0.0.1:1", "3.3.3.3:3"] [2, 0, 1] = some res ∧
      res.2.1.Nodup ∧ res.2.1.length ≤ 10 :=
  (shareNodes_bounded_sample sampleOps mixedGateway
      { threeNodeConn with RemoteAddr := "127.0.0.1:7" }
      ["127.0.0.1:1", "10.0.0.1:1", "3.3.3.3:3"] [2, 0, 1] (by decide) (by decide)).imp
    (fun _ h => ⟨h.1, h.2.1, h.2.2.2.2.1⟩)

set_option maxRecDepth 100000 in
/-- C6 as stated fails: a message of eleven short addresses is read without
error and all eleven are added, and a message holding one address longer than
the maximum encoded address length is read without error. -/
theorem requestNodes_overbound_counterexample :
    maxSharedNodes < elevenNodeConn.incoming.entries.length ∧
    (requestNodes sampleOps sampleCodec emptyGateway elevenNodeConn none).2 = none ∧
    (requestNodes sampleOps sampleCodec emptyGateway elevenNodeConn none).1.nodes.card = 11 ∧
    (∃ a ∈ longAddrConn.incoming.entries,
      sampleCodec.MaxEncodedNetAddressLength < sampleCodec.encodedLen a) ∧
    (requestNodes sampleOps sampleCodec emptyGateway longAddrConn none).2 = none := by
  decide

/-- C6, amended: requestNodes returns an error exactly when the read fails on
the transport or the encoded data of the message is longer than the bound
handed to the read, `maxSharedNodes * MaxEncodedNetAddressLength`.  A message
longer than the bound leaves the node set as it was, and so does every call
that returns an error.  A message within the bound is read whatever its
number of addresses and whatever the encoded length of one address: the call
returns nil and the node set is the old one plus the entries that addNode
accepts. -/
theorem requestNodes_rejects_overlong (ops : AddrOps) (c : WireCodec) (g : Gateway)
    (conn : PeerConn) (saveErr : Option GoError) :
    ((requestNodes ops c g conn saveErr).2 ≠ none ↔
      (conn.incoming.readErr ≠ none ∨
        (maxSharedNodes * c.MaxEncodedNetAddressLength) % 2 ^ 64
          < conn.incoming.dataLen c)) ∧
    ((maxSharedNodes * c.MaxEncodedNetAddressLength) % 2 ^ 64 < conn.incoming.dataLen c →
      (requestNodes ops c g conn saveErr).2 ≠ none ∧
      (requestNodes ops c g conn saveErr).1.nodes = g.nodes) ∧
    ((requestNodes ops c g conn saveErr).2 ≠ none →
      (requestNodes ops c g conn saveErr).1.nodes = g.nodes) ∧
    (conn.incoming.readErr = none →
      conn.incoming.dataLen c
        ≤ (maxSharedNodes * c.MaxEncodedNetAddressLength) % 2 ^ 64 →
      (requestNodes ops c g conn saveErr).2 = none ∧
      ∀ b, b ∈ (requestNodes ops c g conn saveErr).1.nodes ↔
        b ∈ g.nodes ∨ (b ∈ conn.incoming.entries ∧ b ≠ g.myAddr
          ∧ ops.IsStdValid b = none ∧ ops.ParseIP (ops.Host b) ≠ none)) := by
  have hgen : (requestNodes ops c g conn saveErr).2 ≠ none →
      (requestNodes ops c g conn saveErr).1.nodes = g.nodes := by
    unfold requestNodes
    cases hread : ReadObject c conn.incoming
        ((maxSharedNodes * c.MaxEncodedNetAddressLength) % 2 ^ 64) with
    | error e => intro _; rfl
    | ok L => intro h; exact absurd rfl h
  have hbad : (conn.incoming.readErr ≠ none ∨
      (maxSharedNodes * c.MaxEncodedNetAddressLength) % 2 ^ 64
        < conn.incoming.dataLen c) →
      (requestNodes ops c g conn saveErr).2 ≠ none := by
    intro hcase
    have hro : ∃ e, ReadObject c conn.incoming
        ((maxSharedNodes * c.MaxEncodedNetAddressLength) % 2 ^ 64) = Except.error e := by
      unfold ReadObject
      cases hre : conn.incoming.readErr with
      | some e => exact ⟨e, rfl⟩
      | none =>
        rcases hcase with h | h
        · exact absurd hre h
        · exact ⟨_, if_pos h⟩
    obtain ⟨e, he⟩ := hro
    rw [(requestNodes_trace_error ops c g conn saveErr e he).1]
    exact Option.some_ne_none e
  have hgood : conn.incoming.readErr = none →
      conn.incoming.dataLen c
        ≤ (maxSharedNodes * c.MaxEncodedNetAddressLength) % 2 ^ 64 →
      (requestNodes ops c g conn saveErr).2 = none ∧
      ∀ b, b ∈ (requestNodes ops c g conn saveErr).1.nodes ↔
        b ∈ g.nodes ∨ (b ∈ conn.incoming.entries ∧ b ≠ g.myAddr
          ∧ ops.IsStdValid b = none ∧ ops.ParseIP (ops.Host b) ≠ none) := by
    intro hre hle
    have hread : ReadObject c conn.incoming
        ((maxSharedNodes * c.MaxEncodedNetAddressLength) % 2 ^ 64)
        = Except.ok conn.incoming.entries := by
      unfold ReadObject
      rw [hre]
      exact if_neg (Nat.not_lt.mpr hle)
    obtain ⟨hret, hnodes⟩ := requestNodes_ok ops c g conn saveErr _ hread
    refine ⟨hret, fun b => ?_⟩
    rw [hnodes, requestNodesLoop_mem]
    rfl
  refine ⟨⟨fun herr => ?_, hbad⟩, fun hlong => ⟨hbad (Or.inr hlong), hgen (hbad (Or.inr hlong))⟩,
    hgen, hgood⟩
  by_contra hno
  push_neg at hno
  exact herr (hgood hno.1 hno.2).1

set_option maxRecDepth 100000 in
/-- Witness of C6, amended: two hundred addresses exceed the bound and are
refused; eleven short addresses stay within it and are read. -/
theorem requestNodes_rejects_overlong_witness :
    ((requestNodes sampleOps sampleCodec emptyGateway floodConn none).2 ≠ none ∧
      (requestNodes sampleOps sampleCodec emptyGateway floodConn none).1.nodes
        = emptyGateway.nodes) ∧
    (requestNodes sampleOps sampleCodec emptyGateway elevenNodeConn none).2 = none ∧
    (requestNodes sampleOps sampleCodec emptyGateway floodConn none).2
      = some (GoError.errorsNew "encoded object exceeds the maximum length") ∧
    ReadObject sampleCodec elevenNodeConn.incoming 2660
      = Except.ok elevenNodeConn.incoming.entries :=
  ⟨(requestNodes_rejects_overlong sampleOps sampleCodec emptyGateway floodConn none).2.1
      (by decide),
   ((requestNodes_rejects_overlong sampleOps sampleCodec emptyGateway elevenNodeConn
      none).2.2.2 rfl (by decide)).1,
   by decide,
   rfl⟩

/-- C11: addNode of the own address returns `errOurAddress` and leaves the
state as it is, for every state: whether or not the address is well-formed or
is listed in the node set. -/
theorem addNode_own_address (ops : AddrOps) (g : Gateway) :
    addNode ops g g.myAddr = (g, some GoError.errOurAddress) := by
  unfold addNode
  rw [if_pos rfl]

/-- C12: the node-set invariant (every member differs from the own address,
passes `IsStdValid` and has an IP-literal host) holds of the empty node set
and is kept by addNode, removeNode, requestNodes and a purger iteration, none
of which changes the own address. -/
theorem nodesValid_preserved (ops : AddrOps) :
    (∀ myAddr peers trace,
      NodesValid ops { myAddr := myAddr, nodes := ∅, peers := peers, trace := trace }) ∧
    (∀ g a, NodesValid ops g →
      NodesValid ops (addNode ops g a).1 ∧ (addNode ops g a).1.myAddr = g.myAddr) ∧
    (∀ g a, NodesValid ops g →
      NodesValid ops (removeNode g a).1 ∧ (removeNode g a).1.myAddr = g.myAddr) ∧
    (∀ c g conn saveErr, NodesValid ops g →
      NodesValid ops (requestNodes ops c g conn saveErr).1 ∧
      (requestNodes ops c g conn saveErr).1.myAddr = g.myAddr) ∧
    (∀ p g d, NodesValid ops g →
      NodesValid ops (purgerIteration p g d) ∧
      (purgerIteration p g d).myAddr = g.myAddr) := by
  refine ⟨?_, ?_, ?_, ?_, ?_⟩
  · intro myAddr peers trace a ha
    simp at ha
  · intro g a hinv
    refine ⟨?_, addNode_myAddr ops g a⟩
    intro b hb
    rw [addNode_myAddr]
    rcases (addNode_mem ops g a b).mp hb with h | ⟨rfl, h⟩
    · exact hinv b h
    · exact h
  · intro g a hinv
    refine ⟨?_, removeNode_myAddr g a⟩
    intro b hb
    rw [removeNode_myAddr]
    rw [removeNode_nodes] at hb
    exact hinv b (Finset.mem_of_mem_erase hb)
  · intro c g conn saveErr hinv
    refine ⟨?_, (requestNodes_frame ops c g conn saveErr).1⟩
    intro b hb
    rw [(requestNodes_frame ops c g conn saveErr).1]
    rcases requestNodes_mem_imp ops c g conn saveErr b hb with h | h
    · exact hinv b h
    · exact h
  · intro p g d hinv
    refine ⟨?_, (purgerIteration_frame p g d).1⟩
    intro b hb
    rw [(purgerIteration_frame p g d).1]
    exact hinv b (purgerIteration_subset p g d hb)

/-- Witness of C12: a valid address added to a valid three-node set. -/
theorem nodesValid_preserved_witness :
    NodesValid sampleOps (addNode sampleOps threeNodeGateway "4.4.4.4:4").1 ∧
    (addNode sampleOps threeNodeGateway "4.4.4.4:4").1.myAddr = threeNodeGateway.myAddr :=
  (nodesValid_preserved sampleOps).2.1 threeNodeGateway "4.4.4.4:4" (by decide)

/-- C14: on an empty node set a purger iteration leaves the node set empty
and attempts no dial, but it does write an error to the log: randomNode
answers `errNoPeers`, which the test against `errNoNodes` lets through to the
logging branch. -/
theorem purgerIteration_empty_logs_error (p : Nat) (myAddr : NetAddress)
    (peers : Finset NetAddress) (trace : List Event) (d : PurgerDraw) :
    newEvents { myAddr := myAddr, nodes := ∅, peers := peers, trace := trace }
        (purgerIteration p
          { myAddr := myAddr, nodes := ∅, peers := peers, trace := trace } d)
      = [Event.rlock, Event.readNodes, Event.readNodes, Event.runlock,
          Event.log (LogEntry.errorRandomNode GoError.errNoPeers)] ∧
    (purgerIteration p
      { myAddr := myAddr, nodes := ∅, peers := peers, trace := trace } d).nodes = ∅ := by
  constructor
  · apply newEvents_eq
    rw [purgerIteration_trace]
    have hr : randomNode { myAddr := myAddr, nodes := ∅, peers := peers, trace := trace }
        d.order d.r = ("", some GoError.errNoPeers) := rfl
    simp [hr]
  · rw [purgerIteration_nodes]
    have hr : randomNode { myAddr := myAddr, nodes := ∅, peers := peers, trace := trace }
        d.order d.r = ("", some GoError.errNoPeers) := rfl
    simp [hr]

/-- C19: in a purger iteration that picks the node `n` from a non-empty node
set, the ping of `n` returns the error of the dial or, the dial having
succeeded, the result of the handshake; the node set afterwards is the old
one without `n` exactly when the size read exceeds `pruneNodeListLen`, `n` is
no peer and the dial or the handshake fails; in every other case the node set
is unchanged; when `n` is a peer neither a dial nor a handshake happens; when
the size exceeds `pruneNodeListLen` and `n` is no peer, `n` is dialled and,
the dial having succeeded, the handshake is made; and the peer set is never
changed. -/
theorem purger_evicts_unreachable (p : Nat) (g : Gateway) (d : PurgerDraw)
    (henum : Enumerates g.nodes d.order) (h0 : 0 ≤ d.r) (hr : d.r < g.nodes.card) :
    (randomNode g d.order d.r).2 = none ∧
    (randomNode g d.order d.r).1 ∈ g.nodes ∧
    (pingNode g (randomNode g d.order d.r).1 d.dialErr d.handshakeErr).2 =
      (match d.dialErr with
        | some e => some e
        | none => d.handshakeErr) ∧
    ((purgerIteration p g d).nodes = g.nodes.erase (randomNode g d.order d.r).1 ↔
      (p < g.nodes.card ∧ (randomNode g d.order d.r).1 ∉ g.peers ∧
        (d.dialErr ≠ none ∨ d.handshakeErr ≠ none))) ∧
    (¬ (p < g.nodes.card ∧ (randomNode g d.order d.r).1 ∉ g.peers ∧
        (d.dialErr ≠ none ∨ d.handshakeErr ≠ none)) →
      (purgerIteration p g d).nodes = g.nodes) ∧
    ((randomNode g d.order d.r).1 ∈ g.peers →
      ∀ e ∈ newEvents g (purgerIteration p g d), e.isPing = false) ∧
    (p < g.nodes.card → (randomNode g d.order d.r).1 ∉ g.peers →
      Event.dial (randomNode g d.order d.r).1 ∈ newEvents g (purgerIteration p g d) ∧
      (d.dialErr = none →
        Event.handshake (randomNode g d.order d.r).1
          ∈ newEvents g (purgerIteration p g d))) ∧
    (purgerIteration p g d).peers = g.peers := by
  obtain ⟨n, hget, hpick⟩ := randomNode_index g d.order d.r henum h0 hr
  have hmem : n ∈ g.nodes := (henum.2 n).mp (List.get?_mem hget)
  have hne : g.nodes.erase n ≠ g.nodes := by
    intro h
    have := Finset.not_mem_erase n g.nodes
    rw [h] at this
    exact this hmem
  have hiff := pingNode_fails_iff g n d.dialErr d.handshakeErr
  rw [hpick]
  refine ⟨rfl, hmem, pingNode_result g n d.dialErr d.handshakeErr, ?_, ?_, ?_, ?_,
    (purgerIteration_frame p g d).2⟩
  · rw [purgerIteration_nodes, hpick, ← hiff]
    simp only [true_and]
    split_ifs with hc
    · exact ⟨fun _ => hc, fun _ => rfl⟩
    · exact ⟨fun h => absurd h.symm hne, fun h => absurd h hc⟩
  · intro hc
    rw [← hiff] at hc
    rw [purgerIteration_nodes, hpick]
    simp only [true_and]
    rw [if_neg hc]
  · intro hpeer e he
    rw [newEvents_eq (purgerIteration_trace p g d), hpick] at he
    simp only [hpeer, if_true, List.append_nil] at he
    split_ifs at he
    · revert e
      decide
    · revert e
      decide
  · intro hlarge hpeer
    have hle : ¬ g.nodes.card ≤ p := by omega
    rw [newEvents_eq (purgerIteration_trace p g d), hpick]
    simp only [hle, hpeer, if_false]
    refine ⟨by simp, fun hd => ?_⟩
    rw [hd]
    simp

/-- Witness of C19: three nodes, floor two; the picked node is no peer, its
dial succeeds and its handshake fails: it is removed. -/
theorem purger_evicts_unreachable_witness :
    (purgerIteration 2 threeNodeGateway failingDraw).nodes
      = threeNodeGateway.nodes.erase
        (randomNode threeNodeGateway failingDraw.order failingDraw.r).1 ∧
    (purgerIteration 2 threeNodeGateway failingDraw).nodes = {"2.2.2.2:2", "3.3.3.3:3"} :=
  ⟨(purger_evicts_unreachable 2 threeNodeGateway failingDraw
      (by decide) (by decide) (by decide)).2.2.2.1.mpr
      ⟨by decide, by decide, Or.inr (by decide)⟩,
   by decide⟩

/-- C18: lock discipline of shareNodes, requestNodes and a purger iteration.
Along the events of each of them, starting and ending with the gateway lock
free: every wire read, wire write, dial and handshake happens with the lock
free; `g.nodes` and `g.peers` are read only with the lock held and `g.nodes`
is written only with the write lock held; the lock is released in the mode
in which it was acquired. -/
theorem lock_discipline :
    (∀ ops g conn order perm,
      perm.Perm (List.range (shareCandidates ops conn.RemoteAddr order).length) →
      ∃ res, shareNodes ops g conn order perm = some res ∧
        lockRun LockState.free (newEvents g res.1) = some LockState.free) ∧
    (∀ ops c g conn saveErr,
      lockRun LockState.free (newEvents g (requestNodes ops c g conn saveErr).1)
        = some LockState.free) ∧
    (∀ p g d,
      lockRun LockState.free (newEvents g (purgerIteration p g d))
        = some LockState.free) := by
  refine ⟨?_, ?_, ?_⟩
  · intro ops g conn order perm hperm
    refine ⟨_, shareNodes_written ops g conn order perm hperm, ?_⟩
    have htr : ∀ nodes : List NetAddress,
        ((((((g.emit Event.setDeadline).emit Event.rlock).emit Event.readNodes).emit
          Event.runlock).emit (Event.writeObject nodes))).trace
        = g.trace ++ [Event.setDeadline, Event.rlock, Event.readNodes, Event.runlock,
            Event.writeObject nodes] := by
      intro nodes
      simp [emit_trace]
    rw [newEvents_eq (htr _)]
    rfl
  · intro ops c g conn saveErr
    cases hread : ReadObject c conn.incoming
        ((maxSharedNodes * c.MaxEncodedNetAddressLength) % 2 ^ 64) with
    | error e =>
      rw [newEvents_eq (requestNodes_trace_error ops c g conn saveErr e hread).2]
      rfl
    | ok L =>
      obtain ⟨evs, hev, htr⟩ := requestNodes_trace_ok ops c g conn saveErr L hread
      rw [newEvents_eq htr, List.append_assoc, lockRun_append]
      have h1 : lockRun LockState.free [Event.setDeadline, Event.readObject, Event.lock]
          = some LockState.writeHeld := rfl
      rw [h1, Option.some_bind, lockRun_append, lockRun_writes evs hev, Option.some_bind]
      cases saveErr <;> rfl
  · intro p g d
    rw [newEvents_eq (purgerIteration_trace p g d)]
    generalize randomNode g d.order d.r = picked
    obtain ⟨node, err⟩ := picked
    cases err with
    | some e =>
      by_cases he : e = GoError.errNoNodes
      · simp [he, lockRun, lockStep]
      · simp [he, lockRun, lockStep]
    | none =>
      by_cases h1 : g.nodes.card ≤ p
      · simp [h1, lockRun, lockStep]
      · by_cases h2 : node ∈ g.peers
        · simp [h1, h2, lockRun, lockStep]
        · cases hd : d.dialErr <;> cases hh : d.handshakeErr <;>
            simp [h1, h2, hd, hh, pingNode, lockRun, lockStep]

/-- Witness of C18: a public requester asks a gateway that knows three
nodes. -/
theorem lock_discipline_witness :
    ∃ res, shareNodes sampleOps mixedGateway threeNodeConn
        ["127.0.0.1:1", "10.0.0.1:1", "3.3.3.3:3"] [0] = some res ∧
      lockRun LockState.free (newEvents mixedGateway res.1) = some LockState.free :=
  lock_discipline.1 sampleOps mixedGateway threeNodeConn
    ["127.0.0.1:1", "10.0.0.1:1", "3.3.3.3:3"] [0] (by decide)

/-- C20: when the read of requestNodes decodes a list, of any length, the
call returns nil and calls `g.save()` exactly once, on the final node set and
after every addNode; this holds whatever the result of the save, so a failing
save takes back no addition: the node set is the old one plus the accepted
entries. -/
theorem requestNodes_saves_once (ops : AddrOps) (c : WireCodec) (g : Gateway)
    (conn : PeerConn) (saveErr : Option GoError) (L : List NetAddress)
    (hread : ReadObject c conn.incoming
      ((maxSharedNodes * c.MaxEncodedNetAddressLength) % 2 ^ 64) = Except.ok L) :
    (requestNodes ops c g conn saveErr).2 = none ∧
    (∃ pre post, newEvents g (requestNodes ops c g conn saveErr).1
        = pre ++ Event.save (requestNodes ops c g conn saveErr).1.nodes saveErr :: post ∧
      (∀ e ∈ pre, e.isSave = false) ∧
      (∀ e ∈ post, e.isSave = false ∧ e ≠ Event.writeNodes)) ∧
    (∀ b, b ∈ (requestNodes ops c g conn saveErr).1.nodes ↔
      b ∈ g.nodes ∨ (b ∈ L ∧ b ≠ g.myAddr ∧ ops.IsStdValid b = none
        ∧ ops.ParseIP (ops.Host b) ≠ none)) := by
  obtain ⟨hret, hnodes⟩ := requestNodes_ok ops c g conn saveErr L hread
  obtain ⟨evs, hev, htr⟩ := requestNodes_trace_ok ops c g conn saveErr L hread
  refine ⟨hret, ⟨_, _, newEvents_eq htr, ?_, ?_⟩, ?_⟩
  · intro e he
    simp only [List.mem_append, List.mem_cons, List.mem_singleton, List.not_mem_nil,
      or_false] at he
    rcases he with (rfl | rfl | rfl) | he
    · rfl
    · rfl
    · rfl
    · rcases hev e he with rfl | hl
      · rfl
      · cases e <;> simp [Event.isLog] at hl
        rfl
  · intro e he
    cases saveErr with
    | none =>
      simp only [List.nil_append, List.mem_singleton] at he
      rw [he]
      exact ⟨rfl, by simp⟩
    | some err =>
      simp only [List.singleton_append, List.mem_cons, List.mem_singleton,
        List.not_mem_nil, or_false] at he
      rcases he with rfl | rfl
      · exact ⟨rfl, by simp⟩
      · exact ⟨rfl, by simp⟩
  · intro b
    rw [hnodes, requestNodesLoop_mem]
    rfl

/-- Witness of C20: three valid addresses arrive and the save fails. -/
theorem requestNodes_saves_once_witness :
    (requestNodes sampleOps sampleCodec emptyGateway threeNodeConn (some diskFull)).2
      = none :=
  (requestNodes_saves_once sampleOps sampleCodec emptyGateway threeNodeConn
    (some diskFull) ["1.1.1.1:1", "2.2.2.2:2", "3.3.3.3:3"] rfl).1

/-- C13: a manager iteration that got past its first wait issues the
ShareNodes RPC exactly when it picked an outbound peer and the node-set size
it read is below `healthyNodeListLen`.  With a peer and a size at or above
`healthyNodeListLen` it issues no RPC, leaves the node set as it is, and
either waits `wellConnectedDelay` and goes on or returns on shutdown; without
a peer it issues no RPC and goes on. -/
theorem manager_rpc_iff_unhealthy (h : Nat) (ops : AddrOps) (c : WireCodec)
    (g : Gateway) (d : ManagerDraw) (hstart : d.stopAtStart = false) :
    (d.peerErr = none →
      (Event.rpcShareNodes d.peer ∈ newEvents g (managerIteration h ops c g d).1 ↔
        g.nodes.card < h)) ∧
    (d.peerErr = none → h ≤ g.nodes.card →
      (∀ e ∈ newEvents g (managerIteration h ops c g d).1, e.isRPC = false) ∧
      (managerIteration h ops c g d).1.nodes = g.nodes ∧
      (managerIteration h ops c g d).2 = d.stopWhileHealthy ∧
      newEvents g (managerIteration h ops c g d).1 =
        [Event.sleep Delay.nodeListDelay, Event.rlock, Event.readNodes, Event.readPeers,
          Event.runlock] ++
        (if d.stopWhileHealthy then [] else [Event.sleep Delay.wellConnectedDelay])) ∧
    (d.peerErr ≠ none →
      (∀ e ∈ newEvents g (managerIteration h ops c g d).1, e.isRPC = false) ∧
      (managerIteration h ops c g d).2 = false) := by
  have hquiet : ∀ e ∈ [Event.sleep Delay.nodeListDelay, Event.rlock, Event.readNodes,
        Event.readPeers, Event.runlock] ++
      (match d.peerErr with
        | some e =>
          if e = GoError.errNoPeers then [] else [Event.log (LogEntry.errorRandomPeer e)]
        | none =>
          if d.stopWhileHealthy then [] else [Event.sleep Delay.wellConnectedDelay]),
      e.isRPC = false := by
    have hfix : ∀ e ∈ [Event.sleep Delay.nodeListDelay, Event.rlock, Event.readNodes,
        Event.readPeers, Event.runlock], e.isRPC = false := by decide
    intro e he
    rcases List.mem_append.mp he with h1 | h2
    · exact hfix e h1
    · cases hp : d.peerErr with
      | some err =>
        simp only [hp] at h2
        by_cases hc : err = GoError.errNoPeers
        · simp [hc] at h2
        · simp only [hc, if_false, List.mem_singleton] at h2
          rw [h2]
          rfl
      | none =>
        simp only [hp] at h2
        cases hc : d.stopWhileHealthy
        · simp only [hc, Bool.false_eq_true, if_false, List.mem_singleton] at h2
          rw [h2]
          rfl
        · simp [hc] at h2
  refine ⟨?_, ?_, ?_⟩
  · intro hpeer
    constructor
    · intro hmem
      by_contra hge
      obtain ⟨-, hev, -⟩ := managerIteration_quiet h ops c g d hstart
        (Or.inr (Nat.le_of_not_lt hge))
      rw [hev] at hmem
      have := hquiet _ hmem
      simp [Event.isRPC] at this
    · intro hlow
      obtain ⟨evs, hev⟩ := managerIteration_unhealthy h ops c g d hstart hpeer hlow
      rw [hev]
      simp
  · intro hpeer hge
    obtain ⟨hn, hev, hret⟩ := managerIteration_quiet h ops c g d hstart (Or.inr hge)
    refine ⟨?_, hn, ?_, ?_⟩
    · rw [hev]
      exact hquiet
    · rw [hret, hpeer]
      simp
    · rw [hev, hpeer]
  · intro hpeer
    obtain ⟨-, hev, hret⟩ := managerIteration_quiet h ops c g d hstart (Or.inl hpeer)
    refine ⟨?_, ?_⟩
    · rw [hev]
      exact hquiet
    · rw [hret]
      simp [hpeer]

/-- Witness of C13: an empty node set, healthy length 3, a peer was picked:
the RPC is issued. -/
theorem manager_rpc_iff_unhealthy_witness :
    Event.rpcShareNodes managerDraw.peer
      ∈ newEvents emptyGateway
        (managerIteration 3 sampleOps sampleCodec emptyGateway managerDraw).1 ↔
      emptyGateway.nodes.card < 3 :=
  (manager_rpc_iff_unhealthy 3 sampleOps sampleCodec emptyGateway managerDraw rfl).1 rfl

/-- C15: with a block size limit of 2,000,000 bytes and three unconfirmed
transactions of 1,000,000 bytes each, each of which fits in a block,
ReceiveUpdatedUnconfirmedTransactions stores the first two: 2,000,000 bytes,
more than the 1,995,000 bytes that the limit leaves after the overhead.  The
transaction that makes the remaining size negative is kept. -/
theorem receive_keeps_overflowing_transaction :
    (ReceiveUpdatedUnconfirmedTransactions megabyteTxEnv idleBlockCreator
        [feeTx 1, feeTx 2, feeTx 3]).unsolvedTransactions = [feeTx 1, feeTx 2] ∧
    totalSize megabyteTxEnv [feeTx 1, feeTx 2] = 2000000 ∧
    ¬ (totalSize megabyteTxEnv [feeTx 1, feeTx 2] ≤ megabyteTxEnv.BlockSizeLimit - 5000) ∧
    totalSize megabyteTxEnv [feeTx 1] ≤ megabyteTxEnv.BlockSizeLimit - 5000 ∧
    (∀ t ∈ [feeTx 1, feeTx 2, feeTx 3], fitsInABlock megabyteTxEnv t = none) := by
  decide

/-- C16: noRepeats returns `ErrDoubleSpend` exactly when two coin inputs at
different positions, or two block-stake inputs at different positions, have
the same ParentID, and nil otherwise; so a transaction that StandaloneValid
accepts spends no output twice. -/
theorem noRepeats_detects_double_spend (t : Transaction) :
    (noRepeats t = some TypesError.ErrDoubleSpend ↔
      ((∃ i j : Nat, i ≠ j ∧ ∃ a b, t.CoinInputs[i]? = some a ∧
          t.CoinInputs[j]? = some b ∧ a.ParentID = b.ParentID) ∨
       (∃ i j : Nat, i ≠ j ∧ ∃ a b, t.BlockStakeInputs[i]? = some a ∧
          t.BlockStakeInputs[j]? = some b ∧ a.ParentID = b.ParentID))) ∧
    (noRepeats t = none ↔
      ¬ ((∃ i j : Nat, i ≠ j ∧ ∃ a b, t.CoinInputs[i]? = some a ∧
          t.CoinInputs[j]? = some b ∧ a.ParentID = b.ParentID) ∨
       (∃ i j : Nat, i ≠ j ∧ ∃ a b, t.BlockStakeInputs[i]? = some a ∧
          t.BlockStakeInputs[j]? = some b ∧ a.ParentID = b.ParentID))) ∧
    (∀ env currentHeight, StandaloneValid env t currentHeight = none →
      ¬ ((∃ i j : Nat, i ≠ j ∧ ∃ a b, t.CoinInputs[i]? = some a ∧
          t.CoinInputs[j]? = some b ∧ a.ParentID = b.ParentID) ∨
       (∃ i j : Nat, i ≠ j ∧ ∃ a b, t.BlockStakeInputs[i]? = some a ∧
          t.BlockStakeInputs[j]? = some b ∧ a.ParentID = b.ParentID))) := by
  have hnone : noRepeats t = none ↔
      ¬ ((∃ i j : Nat, i ≠ j ∧ ∃ a b, t.CoinInputs[i]? = some a ∧
          t.CoinInputs[j]? = some b ∧ a.ParentID = b.ParentID) ∨
       (∃ i j : Nat, i ≠ j ∧ ∃ a b, t.BlockStakeInputs[i]? = some a ∧
          t.BlockStakeInputs[j]? = some b ∧ a.ParentID = b.ParentID)) := by
    rw [noRepeats_none_iff, ← not_nodup_map_iff (fun sci : CoinInput => sci.ParentID),
      ← not_nodup_map_iff (fun bsi : BlockStakeInput => bsi.ParentID)]
    tauto
  refine ⟨?_, hnone, ?_⟩
  · constructor
    · intro h
      by_contra hno
      rw [hnone.mpr hno] at h
      simp at h
    · intro h
      rcases noRepeats_cases t with h' | h'
      · exact absurd h (hnone.mp h')
      · exact h'
  · intro env currentHeight hvalid
    apply hnone.mp
    unfold StandaloneValid at hvalid
    cases hfit : fitsInABlock env t with
    | some e => simp [hfit] at hvalid
    | none =>
      cases hrep : noRepeats t with
      | some e => simp [hfit, hrep] at hvalid
      | none => rfl

/-- Witness of C16: a transaction whose first and third coin inputs spend
the same output is rejected. -/
theorem noRepeats_detects_double_spend_witness :
    noRepeats doubleSpendTx = some TypesError.ErrDoubleSpend :=
  (noRepeats_detects_double_spend doubleSpendTx).1.mpr
    (Or.inl ⟨0, 2, by decide, _, _, rfl, rfl, rfl⟩)

/-- C17: followsMinimumValues returns nil exactly when every coin output
value, every block-stake output value and every miner fee is non-zero; it
returns `ErrZeroOutput` exactly when some coin or block-stake output value is
zero, whatever the miner fees; and `ErrZeroMinerFee` exactly when no output
value is zero and some miner fee is. -/
theorem followsMinimumValues_rule (t : Transaction) :
    (followsMinimumValues t = none ↔
      (∀ sco ∈ t.CoinOutputs, sco.Value ≠ 0) ∧
      (∀ bso ∈ t.BlockStakeOutputs, bso.Value ≠ 0) ∧
      (∀ fee ∈ t.MinerFees, fee ≠ 0)) ∧
    (followsMinimumValues t = some TypesError.ErrZeroOutput ↔
      (∃ sco ∈ t.CoinOutputs, sco.Value = 0) ∨
      (∃ bso ∈ t.BlockStakeOutputs, bso.Value = 0)) ∧
    (followsMinimumValues t = some TypesError.ErrZeroMinerFee ↔
      (∀ sco ∈ t.CoinOutputs, sco.Value ≠ 0) ∧
      (∀ bso ∈ t.BlockStakeOutputs, bso.Value ≠ 0) ∧
      (∃ fee ∈ t.MinerFees, fee = 0)) := by
  have hco : (t.CoinOutputs.any (fun sco => sco.Value.IsZero)) = true ↔
      ∃ sco ∈ t.CoinOutputs, sco.Value = 0 := by
    simp [List.any_eq_true, Currency.IsZero]
  have hbo : (t.BlockStakeOutputs.any (fun bso => bso.Value.IsZero)) = true ↔
      ∃ bso ∈ t.BlockStakeOutputs, bso.Value = 0 := by
    simp [List.any_eq_true, Currency.IsZero]
  have hfee : (t.MinerFees.any (fun fee => fee.IsZero)) = true ↔
      ∃ fee ∈ t.MinerFees, fee = 0 := by
    simp [List.any_eq_true, Currency.IsZero]
  unfold followsMinimumValues
  by_cases h1 : (t.CoinOutputs.any (fun sco => sco.Value.IsZero)) = true
  · have e1 := hco.mp h1
    obtain ⟨x, hx, hz⟩ := e1
    rw [if_pos h1]
    refine ⟨⟨fun h => by simp at h, fun h => absurd hz (h.1 x hx)⟩,
      ⟨fun _ => Or.inl ⟨x, hx, hz⟩, fun _ => rfl⟩,
      ⟨fun h => by simp at h, fun h => absurd hz (h.1 x hx)⟩⟩
  · have n1 : ∀ sco ∈ t.CoinOutputs, sco.Value ≠ 0 := by
      intro x hx hz
      exact h1 (hco.mpr ⟨x, hx, hz⟩)
    rw [if_neg h1]
    by_cases h2 : (t.BlockStakeOutputs.any (fun bso => bso.Value.IsZero)) = true
    · have e2 := hbo.mp h2
      obtain ⟨x, hx, hz⟩ := e2
      rw [if_pos h2]
      refine ⟨⟨fun h => by simp at h, fun h => absurd hz (h.2.1 x hx)⟩,
        ⟨fun _ => Or.inr ⟨x, hx, hz⟩, fun _ => rfl⟩,
        ⟨fun h => by simp at h, fun h => absurd hz (h.2.1 x hx)⟩⟩
    · have n2 : ∀ bso ∈ t.BlockStakeOutputs, bso.Value ≠ 0 := by
        intro x hx hz
        exact h2 (hbo.mpr ⟨x, hx, hz⟩)
      have nout : ¬ ((∃ sco ∈ t.CoinOutputs, sco.Value = 0) ∨
          (∃ bso ∈ t.BlockStakeOutputs, bso.Value = 0)) := by
        rintro (⟨x, hx, hz⟩ | ⟨x, hx, hz⟩)
        · exact n1 x hx hz
        · exact n2 x hx hz
      rw [if_neg h2]
      by_cases h3 : (t.MinerFees.any (fun fee => fee.IsZero)) = true
      · have e3 := hfee.mp h3
        obtain ⟨x, hx, hz⟩ := e3
        rw [if_pos h3]
        refine ⟨⟨fun h => by simp at h, fun h => absurd hz (h.2.2 x hx)⟩,
          ⟨fun h => by simp at h, fun h => absurd h nout⟩,
          ⟨fun _ => ⟨n1, n2, x, hx, hz⟩, fun _ => rfl⟩⟩
      · have n3 : ∀ fee ∈ t.MinerFees, fee ≠ 0 := by
          intro x hx hz
          exact h3 (hfee.mpr ⟨x, hx, hz⟩)
        rw [if_neg h3]
        refine ⟨⟨fun _ => ⟨n1, n2, n3⟩, fun _ => rfl⟩,
          ⟨fun h => by simp at h, fun h => absurd h nout⟩,
          ⟨fun h => by simp at h, fun h => ?_⟩⟩
        obtain ⟨-, -, x, hx, hz⟩ := h
        exact absurd hz (n3 x hx)

/-- Witness of C17: a zero coin output together with a zero miner fee gives
`ErrZeroOutput`. -/
theorem followsMinimumValues_rule_witness :
    followsMinimumValues
      { CoinInputs := [], CoinOutputs := [{ Value := 0 }], BlockStakeInputs := [],
        BlockStakeOutputs := [], MinerFees := [0] } = some TypesError.ErrZeroOutput :=
  (followsMinimumValues_rule
      { CoinInputs := [], CoinOutputs := [{ Value := 0 }], BlockStakeInputs := [],
        BlockStakeOutputs := [], MinerFees := [0] }).2.1.mpr
    (Or.inl ⟨{ Value := 0 }, by decide, rfl⟩)

/-- C21: the genesis sanity check of ProcessConsensusChange never fires.  A
block creator at height 3 that is handed the genesis block as an applied
block goes to height 4, and as a reverted block to height 2, in both cases
with no critical log entry; and for every block creator and consensus change
the only line that the call can add to the log is the one of a failed
save. -/
theorem genesis_check_never_fires :
    (ProcessConsensusChange 0 idleBlockCreator applyGenesisChange none).Height = 4 ∧
    (ProcessConsensusChange 0 idleBlockCreator applyGenesisChange none).log = [] ∧
    (ProcessConsensusChange 0 idleBlockCreator revertGenesisChange none).Height = 2 ∧
    (ProcessConsensusChange 0 idleBlockCreator revertGenesisChange none).log = [] ∧
    (∀ GenesisID b cc saveErr,
      (ProcessConsensusChange GenesisID b cc saveErr).log =
        b.log ++ (match saveErr with
          | some err => [CreatorLogEntry.println err]
          | none => [])) := by
  refine ⟨by decide, by decide, by decide, by decide, ?_⟩
  intro GenesisID b cc saveErr
  unfold ProcessConsensusChange
  cases saveErr with
  | none => simp [foldl_applyBlock_log, foldl_revertBlock_log]
  | some err => simp [foldl_applyBlock_log, foldl_revertBlock_log]

end Rivine
